import Mathlib

/-!
Verification of the tiny-bip39 seed module (src/seed.rs) and its BIP39
mnemonic/seed pipeline against the natural-language specification.

Byte strings are modelled as `List Nat` (each element a byte value `< 256`,
the UTF-8 bytes of the corresponding Rust string).  The repository sources
only contain `seed.rs` and a validation test; the mnemonic engine, the
`crypto::pbkdf2` module and the English wordlist are external to `src/` and
are modelled from the specification, as marked on each definition.
-/

/-- bytes of an ASCII string literal (UTF-8 bytes for the ASCII range) -/
def strBytes (s : String) : List Nat := s.data.map Char.toNat

/-- chunking worker; fuel bounds the recursion (fuel = list length suffices) -/
def chunkGo {α : Type} (k : Nat) : Nat → List α → List (List α)
  | 0, _ => []
  | _, [] => []
  | fuel + 1, x :: xs => (x :: xs).take k :: chunkGo k fuel ((x :: xs).drop k)

/-- partition a list into consecutive groups of k elements -/
def chunkExact {α : Type} (k : Nat) (l : List α) : List (List α) :=
  if k = 0 then [] else chunkGo k l.length l

/-- the w low-order bits of n, most significant first -/
def natToBits : Nat → Nat → List Bool
  | 0, _ => []
  | w + 1, n => n.testBit w :: natToBits w n

/-- value of a most-significant-first bit string -/
def bitsToNat (l : List Bool) : Nat :=
  l.foldl (fun a b => 2 * a + (if b then 1 else 0)) 0

/-- bits of a byte sequence, each byte most-significant-bit first -/
def bytesToBits (bs : List Nat) : List Bool := bs.flatMap (natToBits 8)

/-- bytes of a bit sequence whose length is a multiple of 8 -/
def bitsToBytes (l : List Bool) : List Nat := (chunkExact 8 l).map bitsToNat

/- ## SHA-256 (Modelled from the spec: the fixed-output cryptographic hash
used by the Checksum Engine; FIPS 180-4 SHA-256, an external primitive the
spec assumes available and standards-correct). -/

def M32 : Nat := 4294967296

def rotr32 (x n : Nat) : Nat := ((x >>> n) ||| (x <<< (32 - n))) % M32

def bsig0x (x : Nat) : Nat := (rotr32 x 2) ^^^ (rotr32 x 13) ^^^ (rotr32 x 22)
def bsig1x (x : Nat) : Nat := (rotr32 x 6) ^^^ (rotr32 x 11) ^^^ (rotr32 x 25)
def ssig0x (x : Nat) : Nat := (rotr32 x 7) ^^^ (rotr32 x 18) ^^^ (x >>> 3)
def ssig1x (x : Nat) : Nat := (rotr32 x 17) ^^^ (rotr32 x 19) ^^^ (x >>> 10)

def chf32 (x y z : Nat) : Nat := (x &&& y) ^^^ ((x ^^^ 4294967295) &&& z)
def majf32 (x y z : Nat) : Nat := (x &&& y) ^^^ (x &&& z) ^^^ (y &&& z)

def K256 : List Nat :=
  [1116352408, 1899447441, 3049323471, 3921009573, 961987163, 1508970993,
   2453635748, 2870763221, 3624381080, 310598401, 607225278, 1426881987,
   1925078388, 2162078206, 2614888103, 3248222580, 3835390401, 4022224774,
   264347078, 604807628, 770255983, 1249150122, 1555081692, 1996064986,
   2554220882, 2821834349, 2952996808, 3210313671, 3336571891, 3584528711,
   113926993, 338241895, 666307205, 773529912, 1294757372, 1396182291,
   1695183700, 1986661051, 2177026350, 2456956037, 2730485921, 2820302411,
   3259730800, 3345764771, 3516065817, 3600352804, 4094571909, 275423344,
   430227734, 506948616, 659060556, 883997877, 958139571, 1322822218,
   1537002063, 1747873779, 1955562222, 2024104815, 2227730452, 2361852424,
   2428436474, 2756734187, 3204031479, 3329325298]

def H256init : List Nat :=
  [1779033703, 3144134277, 1013904242, 2773480762,
   1359893119, 2600822924, 528734635, 1541459225]

/-- SHA-256 message-schedule extension with an explicit 16-word window -/
def wext256 : Nat → Nat → Nat → Nat → Nat → Nat → Nat → Nat → Nat → Nat → Nat → Nat → Nat → Nat → Nat → Nat → Nat → List Nat
  | 0, _, _, _, _, _, _, _, _, _, _, _, _, _, _, _, _ => []
  | n + 1, w0, w1, w2, w3, w4, w5, w6, w7, w8, w9, w10, w11, w12, w13, w14, w15 =>
      w0 :: wext256 n w1 w2 w3 w4 w5 w6 w7 w8 w9 w10 w11 w12 w13 w14 w15
        ((ssig1x w14 + w9 + ssig0x w1 + w0) % M32)
  termination_by structural n => n

def rounds256 : List Nat → List Nat → Nat → Nat → Nat → Nat → Nat → Nat → Nat → Nat → List Nat
  | k :: ks, w :: ws, a, b, c, d, e, f, g, hv =>
      let t1 := (hv + bsig1x e + chf32 e f g + k + w) % M32
      let t2 := (bsig0x a + majf32 a b c) % M32
      rounds256 ks ws ((t1 + t2) % M32) a b c ((d + t1) % M32) e f g
  | _, _, a, b, c, d, e, f, g, hv => [a, b, c, d, e, f, g, hv]

def compress256 (hs : List Nat) (block : List Nat) : List Nat :=
  let ws := wext256 64 (block.getD 0 0) (block.getD 1 0) (block.getD 2 0)
    (block.getD 3 0) (block.getD 4 0) (block.getD 5 0) (block.getD 6 0)
    (block.getD 7 0) (block.getD 8 0) (block.getD 9 0) (block.getD 10 0)
    (block.getD 11 0) (block.getD 12 0) (block.getD 13 0) (block.getD 14 0)
    (block.getD 15 0)
  let fin := rounds256 K256 ws (hs.getD 0 0) (hs.getD 1 0) (hs.getD 2 0)
    (hs.getD 3 0) (hs.getD 4 0) (hs.getD 5 0) (hs.getD 6 0) (hs.getD 7 0)
  List.zipWith (fun x y => (x + y) % M32) hs fin

def bytesToWord (bs : List Nat) : Nat := bs.foldl (fun a b => a * 256 + b) 0

def word32ToBytes (w : Nat) : List Nat :=
  [(w >>> 24) % 256, (w >>> 16) % 256, (w >>> 8) % 256, w % 256]

def pad256 (msg : List Nat) : List Nat :=
  let len := msg.length
  let zeros := (64 - (len + 9) % 64) % 64
  msg ++ [0x80] ++ List.replicate zeros 0 ++
    (word32ToBytes ((8 * len) >>> 32) ++ word32ToBytes ((8 * len) % M32))

def sha256 (msg : List Nat) : List Nat :=
  let blocks := (chunkExact 64 (pad256 msg)).map
    (fun b => (chunkExact 4 b).map bytesToWord)
  (blocks.foldl compress256 H256init).flatMap word32ToBytes

/- ## SHA-512, HMAC-SHA512, PBKDF2 (Modelled from the spec: the
password-based key-stretching function PBKDF2_HMAC_SHA512 named by the seed
derivation contract, an external primitive the spec assumes available and
standards-correct; FIPS 180-4 / RFC 2104 / RFC 2898). -/

def M64 : Nat := 18446744073709551616

def rotr64 (x n : Nat) : Nat := ((x >>> n) ||| (x <<< (64 - n))) % M64

def bsig0w (x : Nat) : Nat := (rotr64 x 28) ^^^ (rotr64 x 34) ^^^ (rotr64 x 39)
def bsig1w (x : Nat) : Nat := (rotr64 x 14) ^^^ (rotr64 x 18) ^^^ (rotr64 x 41)
def ssig0w (x : Nat) : Nat := (rotr64 x 1) ^^^ (rotr64 x 8) ^^^ (x >>> 7)
def ssig1w (x : Nat) : Nat := (rotr64 x 19) ^^^ (rotr64 x 61) ^^^ (x >>> 6)

def chf64 (x y z : Nat) : Nat := (x &&& y) ^^^ ((x ^^^ 18446744073709551615) &&& z)
def majf64 (x y z : Nat) : Nat := (x &&& y) ^^^ (x &&& z) ^^^ (y &&& z)

def K512 : List Nat :=
  [4794697086780616226, 8158064640168781261, 13096744586834688815, 16840607885511220156,
   4131703408338449720, 6480981068601479193, 10538285296894168987, 12329834152419229976,
   15566598209576043074, 1334009975649890238, 2608012711638119052, 6128411473006802146,
   8268148722764581231, 9286055187155687089, 11230858885718282805, 13951009754708518548,
   16472876342353939154, 17275323862435702243, 1135362057144423861, 2597628984639134821,
   3308224258029322869, 5365058923640841347, 6679025012923562964, 8573033837759648693,
   10970295158949994411, 12119686244451234320, 12683024718118986047, 13788192230050041572,
   14330467153632333762, 15395433587784984357, 489312712824947311, 1452737877330783856,
   2861767655752347644, 3322285676063803686, 5560940570517711597, 5996557281743188959,
   7280758554555802590, 8532644243296465576, 9350256976987008742, 10552545826968843579,
   11727347734174303076, 12113106623233404929, 14000437183269869457, 14369950271660146224,
   15101387698204529176, 15463397548674623760, 17586052441742319658, 1182934255886127544,
   1847814050463011016, 2177327727835720531, 2830643537854262169, 3796741975233480872,
   4115178125766777443, 5681478168544905931, 6601373596472566643, 7507060721942968483,
   8399075790359081724, 8693463985226723168, 9568029438360202098, 10144078919501101548,
   10430055236837252648, 11840083180663258601, 13761210420658862357, 14299343276471374635,
   14566680578165727644, 15097957966210449927, 16922976911328602910, 17689382322260857208,
   500013540394364858, 748580250866718886, 1242879168328830382, 1977374033974150939,
   2944078676154940804, 3659926193048069267, 4368137639120453308, 4836135668995329356,
   5532061633213252278, 6448918945643986474, 6902733635092675308, 7801388544844847127]

def H512init : List Nat :=
  [7640891576956012808, 13503953896175478587, 4354685564936845355, 11912009170470909681,
   5840696475078001361, 11170449401992604703, 2270897969802886507, 6620516959819538809]

/-- SHA-512 message-schedule extension with an explicit 16-word window -/
def wext512 : Nat → Nat → Nat → Nat → Nat → Nat → Nat → Nat → Nat → Nat → Nat → Nat → Nat → Nat → Nat → Nat → Nat → List Nat
  | 0, _, _, _, _, _, _, _, _, _, _, _, _, _, _, _, _ => []
  | n + 1, w0, w1, w2, w3, w4, w5, w6, w7, w8, w9, w10, w11, w12, w13, w14, w15 =>
      w0 :: wext512 n w1 w2 w3 w4 w5 w6 w7 w8 w9 w10 w11 w12 w13 w14 w15
        ((ssig1w w14 + w9 + ssig0w w1 + w0) % M64)
  termination_by structural n => n

def rounds512 : List Nat → List Nat → Nat → Nat → Nat → Nat → Nat → Nat → Nat → Nat → List Nat
  | k :: ks, w :: ws, a, b, c, d, e, f, g, hv =>
      let t1 := (hv + bsig1w e + chf64 e f g + k + w) % M64
      let t2 := (bsig0w a + majf64 a b c) % M64
      rounds512 ks ws ((t1 + t2) % M64) a b c ((d + t1) % M64) e f g
  | _, _, a, b, c, d, e, f, g, hv => [a, b, c, d, e, f, g, hv]

def compress512 (hs : List Nat) (block : List Nat) : List Nat :=
  let ws := wext512 80 (block.getD 0 0) (block.getD 1 0) (block.getD 2 0)
    (block.getD 3 0) (block.getD 4 0) (block.getD 5 0) (block.getD 6 0)
    (block.getD 7 0) (block.getD 8 0) (block.getD 9 0) (block.getD 10 0)
    (block.getD 11 0) (block.getD 12 0) (block.getD 13 0) (block.getD 14 0)
    (block.getD 15 0)
  let fin := rounds512 K512 ws (hs.getD 0 0) (hs.getD 1 0) (hs.getD 2 0)
    (hs.getD 3 0) (hs.getD 4 0) (hs.getD 5 0) (hs.getD 6 0) (hs.getD 7 0)
  List.zipWith (fun x y => (x + y) % M64) hs fin

def word64ToBytes (w : Nat) : List Nat :=
  [(w >>> 56) % 256, (w >>> 48) % 256, (w >>> 40) % 256, (w >>> 32) % 256,
   (w >>> 24) % 256, (w >>> 16) % 256, (w >>> 8) % 256, w % 256]

def pad512 (msg : List Nat) : List Nat :=
  let len := msg.length
  let zeros := (128 - (len + 17) % 128) % 128
  msg ++ [0x80] ++ List.replicate zeros 0 ++
    (word64ToBytes ((8 * len) >>> 64) ++ word64ToBytes ((8 * len) % M64))

def sha512 (msg : List Nat) : List Nat :=
  let blocks := (chunkExact 128 (pad512 msg)).map
    (fun b => (chunkExact 8 b).map bytesToWord)
  (blocks.foldl compress512 H512init).flatMap word64ToBytes

/-- HMAC-SHA512 (RFC 2104) -/
def hmacSha512 (key msg : List Nat) : List Nat :=
  let k0 := if key.length > 128 then sha512 key else key
  let kp := k0 ++ List.replicate (128 - k0.length) 0
  let ipad := kp.map (fun b => b ^^^ 0x36)
  let opad := kp.map (fun b => b ^^^ 0x5c)
  sha512 (opad ++ sha512 (ipad ++ msg))

def zipXor (a b : List Nat) : List Nat := List.zipWith (fun x y => x ^^^ y) a b

/-- iterated-U xor chain of PBKDF2 (RFC 2898); n remaining iterations -/
def pbkdf2Chain (key : List Nat) : Nat → List Nat → List Nat → List Nat
  | 0, _, acc => acc
  | n + 1, u, acc =>
      let unext := hmacSha512 key u
      pbkdf2Chain key n unext (zipXor acc unext)

def pbkdf2Block (key salt : List Nat) (iters blockIx : Nat) : List Nat :=
  let u1 := hmacSha512 key (salt ++ word32ToBytes blockIx)
  pbkdf2Chain key (iters - 1) u1 u1

/-- PBKDF2-HMAC-SHA512 with the given iteration count and output length -/
def pbkdf2HmacSha512 (key salt : List Nat) (iters dkLen : Nat) : List Nat :=
  let l := (dkLen + 63) / 64
  (((List.range l).map (fun i => pbkdf2Block key salt iters (i + 1))).flatten).take dkLen

/- ## Mnemonic engine (Modelled from the spec: the Mnemonic type and its two
constructors from_entropy / from_phrase of the `mnemonic` module, which is
part of this repository but absent from src/; src/seed.rs only consumes its
`phrase()` accessor.  Definitions follow sections 4.2 and 4.3 of the spec). -/

inductive MnemonicError
  | invalidEntropyLength
  | invalidWordCount
  | unknownWord (w : List Nat)
  | invalidChecksum
  | malformedIndex
deriving DecidableEq

/-- Mnemonic value: the ordered words plus the entropy they encode -/
structure Mnemonic where
  words : List (List Nat)
  entropy : List Nat
deriving DecidableEq

/-- join words with a single ASCII space (0x20), as the spec's phrase -/
def joinWords : List (List Nat) → List Nat
  | [] => []
  | [w] => w
  | w :: ws => w ++ 32 :: joinWords ws

/-- phrase text of a mnemonic: words joined by a single ASCII space -/
def Mnemonic.phrase (m : Mnemonic) : List Nat := joinWords m.words

/-- split worker: current word accumulated in reverse -/
def splitAux : List Nat → List Nat → List (List Nat)
  | [], cur => [cur.reverse]
  | b :: rest, cur =>
      if b = 32 then cur.reverse :: splitAux rest []
      else splitAux rest (b :: cur)

/-- split on ASCII whitespace, discarding empty tokens -/
def splitWS (s : List Nat) : List (List Nat) :=
  (splitAux s []).filter (fun w => w ≠ [])

/-- the Wordlist Provider interface of the spec: an ordered vocabulary of
exactly 2048 distinct words (nonempty, containing no space), assumed correct -/
structure Wordlist where
  data : List (List Nat)
  size_eq : data.length = 2048
  nodup : data.Nodup
  mem_ne_nil : ∀ w ∈ data, w ≠ []
  mem_no_space : ∀ w ∈ data, 32 ∉ w

/-- reverse-lookup worker: index of the first occurrence, offset by acc.
The inner guard never fires; it forces the incremented accumulator to a
numeral during kernel evaluation, keeping reduction stack-friendly -/
def lookupIdxAux : Nat → List (List Nat) → List Nat → Option Nat
  | _, [], _ => none
  | acc, x :: xs, w =>
      if x = w then some acc
      else
        let m := acc + 1
        if m = 0 then none else lookupIdxAux m xs w

/-- reverse lookup: index of the first occurrence of a word -/
def lookupIdx (l : List (List Nat)) (w : List Nat) : Option Nat :=
  lookupIdxAux 0 l w

/-- Checksum Engine: the first n bits of the SHA-256 hash of the entropy -/
def checksumBits (ent : List Nat) (n : Nat) : List Bool :=
  (bytesToBits (sha256 ent)).take n

/-- Bit-Packing Codec pack: entropy bits (msb first) followed by checksum
bits, partitioned into 11-bit groups read as integers in [0, 2047] -/
def pack (ent : List Nat) (cs : List Bool) : List Nat :=
  (chunkExact 11 (bytesToBits ent ++ cs)).map bitsToNat

/-- Bit-Packing Codec unpack: rebuild the combined bit stream from 11-bit
indices and split it at the entropy bit length -/
def unpack (indices : List Nat) (entBits : Nat) :
    Except MnemonicError (List Nat × List Bool) :=
  if indices.any (fun i => 2047 < i) then .error .malformedIndex
  else if entBits % 8 ≠ 0 then .error .malformedIndex
  else
    let bits := indices.flatMap (natToBits 11)
    .ok (bitsToBytes (bits.take entBits), bits.drop entBits)

/-- from_entropy: reject bad lengths, append the checksum, pack into 11-bit
groups and resolve each index through the wordlist -/
def from_entropy (wl : Wordlist) (ent : List Nat) : Except MnemonicError Mnemonic :=
  if ent.length = 16 ∨ ent.length = 20 ∨ ent.length = 24 ∨
     ent.length = 28 ∨ ent.length = 32 then
    let csLen := ent.length * 8 / 32
    let cs := checksumBits ent csLen
    let indices := pack ent cs
    .ok ⟨indices.map (fun i => wl.data.getD i []), ent⟩
  else .error .invalidEntropyLength

/-- fail-fast traversal of a list under Except -/
def mapExcept {α β ε : Type} (f : α → Except ε β) : List α → Except ε (List β)
  | [] => .ok []
  | x :: xs =>
      match f x with
      | .error e => .error e
      | .ok y =>
          match mapExcept f xs with
          | .error e => .error e
          | .ok ys => .ok (y :: ys)

/-- from_phrase, the validating constructor: split, gate the word count,
reverse-lookup every word, unpack, and compare the checksum -/
def from_phrase (wl : Wordlist) (phrase _pass : List Nat) :
    Except MnemonicError Mnemonic :=
  let ws := splitWS phrase
  if ws.length = 12 ∨ ws.length = 15 ∨ ws.length = 18 ∨
     ws.length = 21 ∨ ws.length = 24 then
    let entBits := ws.length * 11 * 32 / 33
    match mapExcept (fun w =>
        match lookupIdx wl.data w with
        | some i => Except.ok i
        | none => Except.error (MnemonicError.unknownWord w)) ws with
    | .error e => .error e
    | .ok indices =>
        match unpack indices entBits with
        | .error e => .error e
        | .ok (ent, cs) =>
            if checksumBits ent (entBits / 32) = cs then .ok ⟨ws, ent⟩
            else .error .invalidChecksum
  else .error .invalidWordCount

/- ## Seed derivation and hex codec, from src/seed.rs -/

/-- Modelled from the spec: crypto::pbkdf2 of the `crypto` module (absent
from src/), the key-stretching call with iterations=2048 and a 64-byte
output as fixed by the seed derivation contract -/
def cryptoPbkdf2 (key salt : List Nat) : List Nat :=
  pbkdf2HmacSha512 key salt 2048 64

/-- the Seed struct of src/seed.rs: an owned byte buffer -/
structure Seed where
  bytes : List Nat
deriving DecidableEq

/-- Seed::new of src/seed.rs: salt is format!("mnemonic{}", password), the
key is the phrase's bytes exactly as stored -/
def Seed.new (mnemonic : Mnemonic) (password : List Nat) : Seed :=
  let salt := strBytes "mnemonic" ++ password
  let bytes := cryptoPbkdf2 (Mnemonic.phrase mnemonic) salt
  ⟨bytes⟩

/-- Seed::as_bytes of src/seed.rs -/
def Seed.as_bytes (s : Seed) : List Nat := s.bytes

/-- lower-case hex digit of a value below 16 -/
def hexDigitL (n : Nat) : Nat := if n < 10 then 48 + n else 87 + n

/-- upper-case hex digit of a value below 16 -/
def hexDigitU (n : Nat) : Nat := if n < 10 then 48 + n else 55 + n

/-- the two characters written by write!(f, "{:02x}", byte) for a u8 -/
def byteHexL (b : Nat) : List Nat := [hexDigitL (b / 16), hexDigitL (b % 16)]

/-- the two characters written by write!(f, "{:02X}", byte) for a u8 -/
def byteHexU (b : Nat) : List Nat := [hexDigitU (b / 16), hexDigitU (b % 16)]

/-- impl fmt::LowerHex for Seed: "0x" when the alternate flag is set, then
each byte as {:02x} in buffer order -/
def Seed.lowerHex (s : Seed) (alt : Bool) : List Nat :=
  (if alt then strBytes "0x" else []) ++ s.bytes.flatMap byteHexL

/-- impl fmt::UpperHex for Seed: "0x" when the alternate flag is set, then
each byte as {:02X} in buffer order -/
def Seed.upperHex (s : Seed) (alt : Bool) : List Nat :=
  (if alt then strBytes "0x" else []) ++ s.bytes.flatMap byteHexU

/-- error kinds of core's u8::from_str_radix reachable from two-character
chunks; the type carries no position information, mirroring ParseIntError -/
inductive ParseIntErr
  | invalidDigit
  | negOverflow
deriving DecidableEq

/-- panic sites of serde_seed::from_hex / split_n: an out-of-bounds byte
index in a str slice, a usize subtraction underflow, and a str slice whose
byte index does not fall on a character boundary -/
inductive PanicKind
  | sliceOutOfBounds
  | subUnderflow
  | charBoundary
deriving DecidableEq

/-- outcome of a call to serde_seed::from_hex at the public interface -/
inductive HexResult
  | ok (bytes : List Nat)
  | err (e : ParseIntErr)
  | panicked (k : PanicKind)
deriving DecidableEq

/-- ASCII whitespace recognised by str::trim -/
def isWSB (b : Nat) : Bool :=
  b == 9 || b == 10 || b == 11 || b == 12 || b == 13 || b == 32

/-- str::trim on a byte string -/
def trimBytes (s : List Nat) : List Nat :=
  ((s.dropWhile isWSB).reverse.dropWhile isWSB).reverse

/-- a UTF-8 continuation byte (0x80..0xBF).  A byte index into a str is a
character boundary exactly when it is zero, the string length, or its byte
is not a continuation byte; slicing a str at an index that is not a
character boundary panics -/
def isContB (b : Nat) : Bool := decide (127 < b ∧ b < 192)

/-- numeric value of an ASCII hex digit -/
def hexDigitVal (c : Nat) : Option Nat :=
  if 48 ≤ c ∧ c ≤ 57 then some (c - 48)
  else if 97 ≤ c ∧ c ≤ 102 then some (c - 87)
  else if 65 ≤ c ∧ c ≤ 70 then some (c - 55)
  else none

/-- u8::from_str_radix(chunk, 16) on a two-character chunk, including core's
handling of a leading sign character -/
def parsePair (a b : Nat) : Except ParseIntErr Nat :=
  if a = 43 then
    match hexDigitVal b with
    | some v => .ok v
    | none => .error .invalidDigit
  else if a = 45 then
    match hexDigitVal b with
    | some 0 => .ok 0
    | some _ => .error .negOverflow
    | none => .error .invalidDigit
  else
    match hexDigitVal a, hexDigitVal b with
    | some x, some y => .ok (16 * x + y)
    | _, _ => .error .invalidDigit

/-- iter().map(parse).collect::<Result<Vec<u8>, _>>() over the chunks -/
def decodePairs : List (List Nat) → Except ParseIntErr (List Nat)
  | [] => .ok []
  | c :: cs =>
      match parsePair (c.getD 0 0) (c.getD 1 0) with
      | .error e => .error e
      | .ok v =>
          match decodePairs cs with
          | .error e => .error e
          | .ok vs => .ok (v :: vs)

/-- the slices &s[2i..2i+2] that split_n materialises, in order, each
checked as str slicing checks them before any chunk is parsed: walking pair
by pair, a slice end that lands on a continuation byte (so not on a
character boundary) panics there, and on an odd-length string the final
slice reaches past the end and panics on its out-of-bounds end index.  The
start index of each slice is the end index of the one before it (index zero
for the first, a boundary by definition), so checking each end in order
checks every slice bound exactly as the source does -/
def splitScan : List Nat → Option PanicKind
  | [] => none
  | [_] => some .sliceOutOfBounds
  | _ :: _ :: rest =>
      if isContB (rest.getD 0 0) then some .charBoundary
      else splitScan rest

/-- serde_seed::from_hex of src/seed.rs.  An odd-length input returns the
error manufactured by the throwaway "QQQ" parse (kind invalid-digit); the
first two bytes are then sliced and compared against "0x", panicking on
shorter input (byte index 2 out of bounds) or when the byte at index 2
is a UTF-8 continuation byte (byte index 2 not a character boundary); the
remainder is trimmed, and split_n materialises every two-byte slice
(panicking by usize underflow on an empty remainder, on a slice bound
inside a multi-byte character, or on the out-of-bounds final slice of an
odd-length remainder) before u8::from_str_radix decodes the chunks -/
def stripOx (s : List Nat) : List Nat :=
  if s.take 2 = strBytes "0x" then s.drop 2 else s

def from_hex (s : List Nat) : HexResult :=
  if s.length % 2 = 1 then .err .invalidDigit
  else if s.length < 2 then .panicked .sliceOutOfBounds
  else if 2 < s.length ∧ isContB (s.getD 2 0) = true then .panicked .charBoundary
  else if (trimBytes (stripOx s)).length = 0 then .panicked .subUnderflow
  else
    match splitScan (trimBytes (stripOx s)) with
    | some k => .panicked k
    | none =>
        match decodePairs (chunkExact 2 (trimBytes (stripOx s))) with
        | .ok bs => .ok bs
        | .error e => .err e

/-- serde_seed::serialize: the seed rendered as plain lowercase hex -/
def serializeSeed (s : Seed) : List Nat := s.lowerHex false

/-- serde_seed::deserialize: the decoded bytes of from_hex, unchecked -/
def deserializeSeed (s : List Nat) : HexResult := from_hex s

/- ## English wordlist (Modelled from the spec: the per-language Wordlist
Provider data for English, an ordered list of exactly 2048 words; external
data of this repository, reproduced from the standard BIP39 English
vocabulary). -/

def englishStrings : List String :=
  ["abandon", "ability", "able", "about", "above", "absent", "absorb", "abstract", "absurd",
   "abuse", "access", "accident", "account", "accuse", "achieve", "acid", "acoustic", "acquire",
   "across", "act", "action", "actor", "actress", "actual", "adapt", "add", "addict", "address",
   "adjust", "admit", "adult", "advance", "advice", "aerobic", "affair", "afford", "afraid",
   "again", "age", "agent", "agree", "ahead", "aim", "air", "airport", "aisle", "alarm",
   "album", "alcohol", "alert", "alien", "all", "alley", "allow", "almost", "alone", "alpha",
   "already", "also", "alter", "always", "amateur", "amazing", "among", "amount", "amused",
   "analyst", "anchor", "ancient", "anger", "angle", "angry", "animal", "ankle", "announce",
   "annual", "another", "answer", "antenna", "antique", "anxiety", "any", "apart", "apology",
   "appear", "apple", "approve", "april", "arch", "arctic", "area", "arena", "argue", "arm",
   "armed", "armor", "army", "around", "arrange", "arrest", "arrive", "arrow", "art",
   "artefact", "artist", "artwork", "ask", "aspect", "assault", "asset", "assist", "assume",
   "asthma", "athlete", "atom", "attack", "attend", "attitude", "attract", "auction", "audit",
   "august", "aunt", "author", "auto", "autumn", "average", "avocado", "avoid", "awake",
   "aware", "away", "awesome", "awful", "awkward", "axis", "baby", "bachelor", "bacon", "badge",
   "bag", "balance", "balcony", "ball", "bamboo", "banana", "banner", "bar", "barely",
   "bargain", "barrel", "base", "basic", "basket", "battle", "beach", "bean", "beauty",
   "because", "become", "beef", "before", "begin", "behave", "behind", "believe", "below",
   "belt", "bench", "benefit", "best", "betray", "better", "between", "beyond", "bicycle",
   "bid", "bike", "bind", "biology", "bird", "birth", "bitter", "black", "blade", "blame",
   "blanket", "blast", "bleak", "bless", "blind", "blood", "blossom", "blouse", "blue", "blur",
   "blush", "board", "boat", "body", "boil", "bomb", "bone", "bonus", "book", "boost", "border",
   "boring", "borrow", "boss", "bottom", "bounce", "box", "boy", "bracket", "brain", "brand",
   "brass", "brave", "bread", "breeze", "brick", "bridge", "brief", "bright", "bring", "brisk",
   "broccoli", "broken", "bronze", "broom", "brother", "brown", "brush", "bubble", "buddy",
   "budget", "buffalo", "build", "bulb", "bulk", "bullet", "bundle", "bunker", "burden",
   "burger", "burst", "bus", "business", "busy", "butter", "buyer", "buzz", "cabbage", "cabin",
   "cable", "cactus", "cage", "cake", "call", "calm", "camera", "camp", "can", "canal",
   "cancel", "candy", "cannon", "canoe", "canvas", "canyon", "capable", "capital", "captain",
   "car", "carbon", "card", "cargo", "carpet", "carry", "cart", "case", "cash", "casino",
   "castle", "casual", "cat", "catalog", "catch", "category", "cattle", "caught", "cause",
   "caution", "cave", "ceiling", "celery", "cement", "census", "century", "cereal", "certain",
   "chair", "chalk", "champion", "change", "chaos", "chapter", "charge", "chase", "chat",
   "cheap", "check", "cheese", "chef", "cherry", "chest", "chicken", "chief", "child",
   "chimney", "choice", "choose", "chronic", "chuckle", "chunk", "churn", "cigar", "cinnamon",
   "circle", "citizen", "city", "civil", "claim", "clap", "clarify", "claw", "clay", "clean",
   "clerk", "clever", "click", "client", "cliff", "climb", "clinic", "clip", "clock", "clog",
   "close", "cloth", "cloud", "clown", "club", "clump", "cluster", "clutch", "coach", "coast",
   "coconut", "code", "coffee", "coil", "coin", "collect", "color", "column", "combine", "come",
   "comfort", "comic", "common", "company", "concert", "conduct", "confirm", "congress",
   "connect", "consider", "control", "convince", "cook", "cool", "copper", "copy", "coral",
   "core", "corn", "correct", "cost", "cotton", "couch", "country", "couple", "course",
   "cousin", "cover", "coyote", "crack", "cradle", "craft", "cram", "crane", "crash", "crater",
   "crawl", "crazy", "cream", "credit", "creek", "crew", "cricket", "crime", "crisp", "critic",
   "crop", "cross", "crouch", "crowd", "crucial", "cruel", "cruise", "crumble", "crunch",
   "crush", "cry", "crystal", "cube", "culture", "cup", "cupboard", "curious", "current",
   "curtain", "curve", "cushion", "custom", "cute", "cycle", "dad", "damage", "damp", "dance",
   "danger", "daring", "dash", "daughter", "dawn", "day", "deal", "debate", "debris", "decade",
   "december", "decide", "decline", "decorate", "decrease", "deer", "defense", "define", "defy",
   "degree", "delay", "deliver", "demand", "demise", "denial", "dentist", "deny", "depart",
   "depend", "deposit", "depth", "deputy", "derive", "describe", "desert", "design", "desk",
   "despair", "destroy", "detail", "detect", "develop", "device", "devote", "diagram", "dial",
   "diamond", "diary", "dice", "diesel", "diet", "differ", "digital", "dignity", "dilemma",
   "dinner", "dinosaur", "direct", "dirt", "disagree", "discover", "disease", "dish", "dismiss",
   "disorder", "display", "distance", "divert", "divide", "divorce", "dizzy", "doctor",
   "document", "dog", "doll", "dolphin", "domain", "donate", "donkey", "donor", "door", "dose",
   "double", "dove", "draft", "dragon", "drama", "drastic", "draw", "dream", "dress", "drift",
   "drill", "drink", "drip", "drive", "drop", "drum", "dry", "duck", "dumb", "dune", "during",
   "dust", "dutch", "duty", "dwarf", "dynamic", "eager", "eagle", "early", "earn", "earth",
   "easily", "east", "easy", "echo", "ecology", "economy", "edge", "edit", "educate", "effort",
   "egg", "eight", "either", "elbow", "elder", "electric", "elegant", "element", "elephant",
   "elevator", "elite", "else", "embark", "embody", "embrace", "emerge", "emotion", "employ",
   "empower", "empty", "enable", "enact", "end", "endless", "endorse", "enemy", "energy",
   "enforce", "engage", "engine", "enhance", "enjoy", "enlist", "enough", "enrich", "enroll",
   "ensure", "enter", "entire", "entry", "envelope", "episode", "equal", "equip", "era",
   "erase", "erode", "erosion", "error", "erupt", "escape", "essay", "essence", "estate",
   "eternal", "ethics", "evidence", "evil", "evoke", "evolve", "exact", "example", "excess",
   "exchange", "excite", "exclude", "excuse", "execute", "exercise", "exhaust", "exhibit",
   "exile", "exist", "exit", "exotic", "expand", "expect", "expire", "explain", "expose",
   "express", "extend", "extra", "eye", "eyebrow", "fabric", "face", "faculty", "fade", "faint",
   "faith", "fall", "false", "fame", "family", "famous", "fan", "fancy", "fantasy", "farm",
   "fashion", "fat", "fatal", "father", "fatigue", "fault", "favorite", "feature", "february",
   "federal", "fee", "feed", "feel", "female", "fence", "festival", "fetch", "fever", "few",
   "fiber", "fiction", "field", "figure", "file", "film", "filter", "final", "find", "fine",
   "finger", "finish", "fire", "firm", "first", "fiscal", "fish", "fit", "fitness", "fix",
   "flag", "flame", "flash", "flat", "flavor", "flee", "flight", "flip", "float", "flock",
   "floor", "flower", "fluid", "flush", "fly", "foam", "focus", "fog", "foil", "fold", "follow",
   "food", "foot", "force", "forest", "forget", "fork", "fortune", "forum", "forward", "fossil",
   "foster", "found", "fox", "fragile", "frame", "frequent", "fresh", "friend", "fringe",
   "frog", "front", "frost", "frown", "frozen", "fruit", "fuel", "fun", "funny", "furnace",
   "fury", "future", "gadget", "gain", "galaxy", "gallery", "game", "gap", "garage", "garbage",
   "garden", "garlic", "garment", "gas", "gasp", "gate", "gather", "gauge", "gaze", "general",
   "genius", "genre", "gentle", "genuine", "gesture", "ghost", "giant", "gift", "giggle",
   "ginger", "giraffe", "girl", "give", "glad", "glance", "glare", "glass", "glide", "glimpse",
   "globe", "gloom", "glory", "glove", "glow", "glue", "goat", "goddess", "gold", "good",
   "goose", "gorilla", "gospel", "gossip", "govern", "gown", "grab", "grace", "grain", "grant",
   "grape", "grass", "gravity", "great", "green", "grid", "grief", "grit", "grocery", "group",
   "grow", "grunt", "guard", "guess", "guide", "guilt", "guitar", "gun", "gym", "habit", "hair",
   "half", "hammer", "hamster", "hand", "happy", "harbor", "hard", "harsh", "harvest", "hat",
   "have", "hawk", "hazard", "head", "health", "heart", "heavy", "hedgehog", "height", "hello",
   "helmet", "help", "hen", "hero", "hidden", "high", "hill", "hint", "hip", "hire", "history",
   "hobby", "hockey", "hold", "hole", "holiday", "hollow", "home", "honey", "hood", "hope",
   "horn", "horror", "horse", "hospital", "host", "hotel", "hour", "hover", "hub", "huge",
   "human", "humble", "humor", "hundred", "hungry", "hunt", "hurdle", "hurry", "hurt",
   "husband", "hybrid", "ice", "icon", "idea", "identify", "idle", "ignore", "ill", "illegal",
   "illness", "image", "imitate", "immense", "immune", "impact", "impose", "improve", "impulse",
   "inch", "include", "income", "increase", "index", "indicate", "indoor", "industry", "infant",
   "inflict", "inform", "inhale", "inherit", "initial", "inject", "injury", "inmate", "inner",
   "innocent", "input", "inquiry", "insane", "insect", "inside", "inspire", "install", "intact",
   "interest", "into", "invest", "invite", "involve", "iron", "island", "isolate", "issue",
   "item", "ivory", "jacket", "jaguar", "jar", "jazz", "jealous", "jeans", "jelly", "jewel",
   "job", "join", "joke", "journey", "joy", "judge", "juice", "jump", "jungle", "junior",
   "junk", "just", "kangaroo", "keen", "keep", "ketchup", "key", "kick", "kid", "kidney",
   "kind", "kingdom", "kiss", "kit", "kitchen", "kite", "kitten", "kiwi", "knee", "knife",
   "knock", "know", "lab", "label", "labor", "ladder", "lady", "lake", "lamp", "language",
   "laptop", "large", "later", "latin", "laugh", "laundry", "lava", "law", "lawn", "lawsuit",
   "layer", "lazy", "leader", "leaf", "learn", "leave", "lecture", "left", "leg", "legal",
   "legend", "leisure", "lemon", "lend", "length", "lens", "leopard", "lesson", "letter",
   "level", "liar", "liberty", "library", "license", "life", "lift", "light", "like", "limb",
   "limit", "link", "lion", "liquid", "list", "little", "live", "lizard", "load", "loan",
   "lobster", "local", "lock", "logic", "lonely", "long", "loop", "lottery", "loud", "lounge",
   "love", "loyal", "lucky", "luggage", "lumber", "lunar", "lunch", "luxury", "lyrics",
   "machine", "mad", "magic", "magnet", "maid", "mail", "main", "major", "make", "mammal",
   "man", "manage", "mandate", "mango", "mansion", "manual", "maple", "marble", "march",
   "margin", "marine", "market", "marriage", "mask", "mass", "master", "match", "material",
   "math", "matrix", "matter", "maximum", "maze", "meadow", "mean", "measure", "meat",
   "mechanic", "medal", "media", "melody", "melt", "member", "memory", "mention", "menu",
   "mercy", "merge", "merit", "merry", "mesh", "message", "metal", "method", "middle",
   "midnight", "milk", "million", "mimic", "mind", "minimum", "minor", "minute", "miracle",
   "mirror", "misery", "miss", "mistake", "mix", "mixed", "mixture", "mobile", "model",
   "modify", "mom", "moment", "monitor", "monkey", "monster", "month", "moon", "moral", "more",
   "morning", "mosquito", "mother", "motion", "motor", "mountain", "mouse", "move", "movie",
   "much", "muffin", "mule", "multiply", "muscle", "museum", "mushroom", "music", "must",
   "mutual", "myself", "mystery", "myth", "naive", "name", "napkin", "narrow", "nasty",
   "nation", "nature", "near", "neck", "need", "negative", "neglect", "neither", "nephew",
   "nerve", "nest", "net", "network", "neutral", "never", "news", "next", "nice", "night",
   "noble", "noise", "nominee", "noodle", "normal", "north", "nose", "notable", "note",
   "nothing", "notice", "novel", "now", "nuclear", "number", "nurse", "nut", "oak", "obey",
   "object", "oblige", "obscure", "observe", "obtain", "obvious", "occur", "ocean", "october",
   "odor", "off", "offer", "office", "often", "oil", "okay", "old", "olive", "olympic", "omit",
   "once", "one", "onion", "online", "only", "open", "opera", "opinion", "oppose", "option",
   "orange", "orbit", "orchard", "order", "ordinary", "organ", "orient", "original", "orphan",
   "ostrich", "other", "outdoor", "outer", "output", "outside", "oval", "oven", "over", "own",
   "owner", "oxygen", "oyster", "ozone", "pact", "paddle", "page", "pair", "palace", "palm",
   "panda", "panel", "panic", "panther", "paper", "parade", "parent", "park", "parrot", "party",
   "pass", "patch", "path", "patient", "patrol", "pattern", "pause", "pave", "payment", "peace",
   "peanut", "pear", "peasant", "pelican", "pen", "penalty", "pencil", "people", "pepper",
   "perfect", "permit", "person", "pet", "phone", "photo", "phrase", "physical", "piano",
   "picnic", "picture", "piece", "pig", "pigeon", "pill", "pilot", "pink", "pioneer", "pipe",
   "pistol", "pitch", "pizza", "place", "planet", "plastic", "plate", "play", "please",
   "pledge", "pluck", "plug", "plunge", "poem", "poet", "point", "polar", "pole", "police",
   "pond", "pony", "pool", "popular", "portion", "position", "possible", "post", "potato",
   "pottery", "poverty", "powder", "power", "practice", "praise", "predict", "prefer",
   "prepare", "present", "pretty", "prevent", "price", "pride", "primary", "print", "priority",
   "prison", "private", "prize", "problem", "process", "produce", "profit", "program",
   "project", "promote", "proof", "property", "prosper", "protect", "proud", "provide",
   "public", "pudding", "pull", "pulp", "pulse", "pumpkin", "punch", "pupil", "puppy",
   "purchase", "purity", "purpose", "purse", "push", "put", "puzzle", "pyramid", "quality",
   "quantum", "quarter", "question", "quick", "quit", "quiz", "quote", "rabbit", "raccoon",
   "race", "rack", "radar", "radio", "rail", "rain", "raise", "rally", "ramp", "ranch",
   "random", "range", "rapid", "rare", "rate", "rather", "raven", "raw", "razor", "ready",
   "real", "reason", "rebel", "rebuild", "recall", "receive", "recipe", "record", "recycle",
   "reduce", "reflect", "reform", "refuse", "region", "regret", "regular", "reject", "relax",
   "release", "relief", "rely", "remain", "remember", "remind", "remove", "render", "renew",
   "rent", "reopen", "repair", "repeat", "replace", "report", "require", "rescue", "resemble",
   "resist", "resource", "response", "result", "retire", "retreat", "return", "reunion",
   "reveal", "review", "reward", "rhythm", "rib", "ribbon", "rice", "rich", "ride", "ridge",
   "rifle", "right", "rigid", "ring", "riot", "ripple", "risk", "ritual", "rival", "river",
   "road", "roast", "robot", "robust", "rocket", "romance", "roof", "rookie", "room", "rose",
   "rotate", "rough", "round", "route", "royal", "rubber", "rude", "rug", "rule", "run",
   "runway", "rural", "sad", "saddle", "sadness", "safe", "sail", "salad", "salmon", "salon",
   "salt", "salute", "same", "sample", "sand", "satisfy", "satoshi", "sauce", "sausage", "save",
   "say", "scale", "scan", "scare", "scatter", "scene", "scheme", "school", "science",
   "scissors", "scorpion", "scout", "scrap", "screen", "script", "scrub", "sea", "search",
   "season", "seat", "second", "secret", "section", "security", "seed", "seek", "segment",
   "select", "sell", "seminar", "senior", "sense", "sentence", "series", "service", "session",
   "settle", "setup", "seven", "shadow", "shaft", "shallow", "share", "shed", "shell",
   "sheriff", "shield", "shift", "shine", "ship", "shiver", "shock", "shoe", "shoot", "shop",
   "short", "shoulder", "shove", "shrimp", "shrug", "shuffle", "shy", "sibling", "sick", "side",
   "siege", "sight", "sign", "silent", "silk", "silly", "silver", "similar", "simple", "since",
   "sing", "siren", "sister", "situate", "six", "size", "skate", "sketch", "ski", "skill",
   "skin", "skirt", "skull", "slab", "slam", "sleep", "slender", "slice", "slide", "slight",
   "slim", "slogan", "slot", "slow", "slush", "small", "smart", "smile", "smoke", "smooth",
   "snack", "snake", "snap", "sniff", "snow", "soap", "soccer", "social", "sock", "soda",
   "soft", "solar", "soldier", "solid", "solution", "solve", "someone", "song", "soon", "sorry",
   "sort", "soul", "sound", "soup", "source", "south", "space", "spare", "spatial", "spawn",
   "speak", "special", "speed", "spell", "spend", "sphere", "spice", "spider", "spike", "spin",
   "spirit", "split", "spoil", "sponsor", "spoon", "sport", "spot", "spray", "spread", "spring",
   "spy", "square", "squeeze", "squirrel", "stable", "stadium", "staff", "stage", "stairs",
   "stamp", "stand", "start", "state", "stay", "steak", "steel", "stem", "step", "stereo",
   "stick", "still", "sting", "stock", "stomach", "stone", "stool", "story", "stove",
   "strategy", "street", "strike", "strong", "struggle", "student", "stuff", "stumble", "style",
   "subject", "submit", "subway", "success", "such", "sudden", "suffer", "sugar", "suggest",
   "suit", "summer", "sun", "sunny", "sunset", "super", "supply", "supreme", "sure", "surface",
   "surge", "surprise", "surround", "survey", "suspect", "sustain", "swallow", "swamp", "swap",
   "swarm", "swear", "sweet", "swift", "swim", "swing", "switch", "sword", "symbol", "symptom",
   "syrup", "system", "table", "tackle", "tag", "tail", "talent", "talk", "tank", "tape",
   "target", "task", "taste", "tattoo", "taxi", "teach", "team", "tell", "ten", "tenant",
   "tennis", "tent", "term", "test", "text", "thank", "that", "theme", "then", "theory",
   "there", "they", "thing", "this", "thought", "three", "thrive", "throw", "thumb", "thunder",
   "ticket", "tide", "tiger", "tilt", "timber", "time", "tiny", "tip", "tired", "tissue",
   "title", "toast", "tobacco", "today", "toddler", "toe", "together", "toilet", "token",
   "tomato", "tomorrow", "tone", "tongue", "tonight", "tool", "tooth", "top", "topic", "topple",
   "torch", "tornado", "tortoise", "toss", "total", "tourist", "toward", "tower", "town", "toy",
   "track", "trade", "traffic", "tragic", "train", "transfer", "trap", "trash", "travel",
   "tray", "treat", "tree", "trend", "trial", "tribe", "trick", "trigger", "trim", "trip",
   "trophy", "trouble", "truck", "true", "truly", "trumpet", "trust", "truth", "try", "tube",
   "tuition", "tumble", "tuna", "tunnel", "turkey", "turn", "turtle", "twelve", "twenty",
   "twice", "twin", "twist", "two", "type", "typical", "ugly", "umbrella", "unable", "unaware",
   "uncle", "uncover", "under", "undo", "unfair", "unfold", "unhappy", "uniform", "unique",
   "unit", "universe", "unknown", "unlock", "until", "unusual", "unveil", "update", "upgrade",
   "uphold", "upon", "upper", "upset", "urban", "urge", "usage", "use", "used", "useful",
   "useless", "usual", "utility", "vacant", "vacuum", "vague", "valid", "valley", "valve",
   "van", "vanish", "vapor", "various", "vast", "vault", "vehicle", "velvet", "vendor",
   "venture", "venue", "verb", "verify", "version", "very", "vessel", "veteran", "viable",
   "vibrant", "vicious", "victory", "video", "view", "village", "vintage", "violin", "virtual",
   "virus", "visa", "visit", "visual", "vital", "vivid", "vocal", "voice", "void", "volcano",
   "volume", "vote", "voyage", "wage", "wagon", "wait", "walk", "wall", "walnut", "want",
   "warfare", "warm", "warrior", "wash", "wasp", "waste", "water", "wave", "way", "wealth",
   "weapon", "wear", "weasel", "weather", "web", "wedding", "weekend", "weird", "welcome",
   "west", "wet", "whale", "what", "wheat", "wheel", "when", "where", "whip", "whisper", "wide",
   "width", "wife", "wild", "will", "win", "window", "wine", "wing", "wink", "winner", "winter",
   "wire", "wisdom", "wise", "wish", "witness", "wolf", "woman", "wonder", "wood", "wool",
   "word", "work", "world", "worry", "worth", "wrap", "wreck", "wrestle", "wrist", "write",
   "wrong", "yard", "year", "yellow", "you", "young", "youth", "zebra", "zero", "zone", "zoo"]

def englishData : List (List Nat) := englishStrings.map strBytes

/-- strict lexicographic order on byte strings -/
def bytesLtB : List Nat → List Nat → Bool
  | [], [] => false
  | [], _ :: _ => true
  | _ :: _, [] => false
  | a :: as, b :: bs => a < b || (a == b && bytesLtB as bs)

theorem bytesLtB_irrefl (l : List Nat) : bytesLtB l l = false := by
  induction l with
  | nil => rfl
  | cons a as ih => simp [bytesLtB, ih]

theorem bytesLtB_trans : ∀ a b c : List Nat,
    bytesLtB a b = true → bytesLtB b c = true → bytesLtB a c = true := by
  intro a
  induction a with
  | nil =>
      intro b c hab hbc
      cases b with
      | nil => exact hbc
      | cons y ys =>
          cases c with
          | nil => simp [bytesLtB] at hbc
          | cons z zs => rfl
  | cons x xs ih =>
      intro b c hab hbc
      cases b with
      | nil => simp [bytesLtB] at hab
      | cons y ys =>
          cases c with
          | nil => simp [bytesLtB] at hbc
          | cons z zs =>
              simp only [bytesLtB, Bool.or_eq_true, decide_eq_true_eq,
                Bool.and_eq_true, beq_iff_eq] at hab hbc ⊢
              rcases hab with h1 | ⟨hxy, h1⟩ <;> rcases hbc with h2 | ⟨hyz, h2⟩
              · exact Or.inl (h1.trans h2)
              · exact Or.inl (hyz ▸ h1)
              · exact Or.inl (hxy ▸ h2)
              · exact Or.inr ⟨hxy.trans hyz, ih ys zs h1 h2⟩

theorem chain_bytesLt_nodup (l : List (List Nat))
    (hc : List.Chain' (fun a b => bytesLtB a b = true) l) : l.Nodup := by
  haveI : IsTrans (List Nat) (fun a b => bytesLtB a b = true) :=
    ⟨fun a b c => bytesLtB_trans a b c⟩
  have hp := List.chain'_iff_pairwise.mp hc
  exact hp.imp (fun hr he => by
    subst he
    rw [bytesLtB_irrefl] at hr
    cases hr)

/-- tail-recursive length; the guard never fires, it forces the incremented
accumulator to a numeral during kernel evaluation -/
def lenT {α : Type} : Nat → List α → Nat
  | n, [] => n
  | n, _ :: xs =>
      let m := n + 1
      if m = 0 then 0 else lenT m xs

theorem lenT_eq {α : Type} : ∀ (l : List α) (n : Nat), lenT n l = n + l.length := by
  intro l
  induction l with
  | nil => intro n; simp [lenT]
  | cons x xs ih =>
      intro n
      simp [lenT, ih]
      omega

/-- tail-recursive strict-chain check -/
def chainLtB : List (List Nat) → Bool
  | [] => true
  | [_] => true
  | a :: b :: rest => bytesLtB a b && chainLtB (b :: rest)

theorem chainLtB_chain : ∀ l : List (List Nat), chainLtB l = true →
    List.Chain' (fun a b => bytesLtB a b = true) l := by
  intro l
  induction l with
  | nil => intro _; exact List.chain'_nil
  | cons a rest ih =>
      intro hc
      cases rest with
      | nil => exact List.chain'_singleton a
      | cons b rest2 =>
          simp only [chainLtB, Bool.and_eq_true] at hc
          exact List.Chain'.cons hc.1 (ih hc.2)

set_option maxRecDepth 1000000 in
/-- the English language tag: the standard BIP39 English vocabulary as a
Wordlist Provider instance -/
def english : Wordlist where
  data := englishData
  size_eq := by
    have h : lenT 0 englishData = 2048 := by decide
    rw [lenT_eq] at h
    omega
  nodup := chain_bytesLt_nodup englishData (chainLtB_chain englishData (by decide))
  mem_ne_nil := by
    have h : englishData.all (fun w => !w.isEmpty) = true := by decide
    intro w hw
    have := List.all_eq_true.mp h w hw
    simpa using this
  mem_no_space := by
    have h : englishData.all (fun w => !(w.contains 32)) = true := by decide
    intro w hw
    have := List.all_eq_true.mp h w hw
    simpa using this

/- ## General lemmas about bits, bytes and chunking -/

theorem natToBits_length (w n : Nat) : (natToBits w n).length = w := by
  induction w generalizing n with
  | zero => rfl
  | succ w ih => simp [natToBits, ih]

theorem bitsToNat_foldl (l : List Bool) (a : Nat) :
    l.foldl (fun a b => 2 * a + (if b then 1 else 0)) a =
      a * 2 ^ l.length + bitsToNat l := by
  induction l generalizing a with
  | nil => simp [bitsToNat]
  | cons b t ih =>
      simp only [List.foldl_cons, bitsToNat, List.length_cons]
      rw [ih, ih (2 * 0 + if b then 1 else 0)]
      ring

theorem bitsToNat_cons (b : Bool) (t : List Bool) :
    bitsToNat (b :: t) = (if b then 1 else 0) * 2 ^ t.length + bitsToNat t := by
  show List.foldl _ _ (b :: t) = _
  rw [List.foldl_cons, bitsToNat_foldl]
  simp

theorem bitsToNat_lt (l : List Bool) : bitsToNat l < 2 ^ l.length := by
  induction l with
  | nil => simp [bitsToNat]
  | cons b t ih =>
      rw [bitsToNat_cons]
      have h2 : (2 : Nat) ^ (b :: t).length = 2 ^ t.length + 2 ^ t.length := by
        simp [List.length_cons, pow_succ]
        ring
      rw [h2]
      cases b <;> simp <;> omega

theorem natToBits_mod (w n : Nat) : natToBits w (n % 2 ^ w) = natToBits w n := by
  induction w generalizing n with
  | zero => rfl
  | succ w ih =>
      simp only [natToBits, List.cons.injEq]
      refine ⟨?_, ?_⟩
      · rw [Nat.testBit_mod_two_pow]
        simp
      · have hd : (2 : Nat) ^ w ∣ 2 ^ (w + 1) := pow_dvd_pow 2 (Nat.le_succ w)
        calc natToBits w (n % 2 ^ (w + 1))
            = natToBits w ((n % 2 ^ (w + 1)) % 2 ^ w) := (ih _).symm
          _ = natToBits w (n % 2 ^ w) := by rw [Nat.mod_mod_of_dvd n hd]
          _ = natToBits w n := ih n

theorem natToBits_bitsToNat (l : List Bool) : natToBits l.length (bitsToNat l) = l := by
  induction l with
  | nil => rfl
  | cons b t ih =>
      rw [bitsToNat_cons]
      simp only [List.length_cons, natToBits, List.cons.injEq]
      have hlt : bitsToNat t < 2 ^ t.length := bitsToNat_lt t
      have hpos : 0 < 2 ^ t.length := Nat.pos_pow_of_pos t.length (by norm_num)
      have hdiv : ((if b then 1 else 0) * 2 ^ t.length + bitsToNat t) / 2 ^ t.length
          = (if b then 1 else 0) := by
        rw [Nat.mul_comm, Nat.mul_add_div hpos, Nat.div_eq_of_lt hlt, Nat.add_zero]
      have hmod : ((if b then 1 else 0) * 2 ^ t.length + bitsToNat t) % 2 ^ t.length
          = bitsToNat t := by
        cases b
        · simp [Nat.mod_eq_of_lt hlt]
        · simp only [if_pos, one_mul]
          rw [Nat.add_mod_left, Nat.mod_eq_of_lt hlt]
      refine ⟨?_, ?_⟩
      · rw [Nat.testBit_to_div_mod, hdiv]
        cases b <;> simp
      · calc natToBits t.length ((if b then 1 else 0) * 2 ^ t.length + bitsToNat t)
            = natToBits t.length
                (((if b then 1 else 0) * 2 ^ t.length + bitsToNat t) % 2 ^ t.length) :=
              (natToBits_mod _ _).symm
          _ = natToBits t.length (bitsToNat t) := by rw [hmod]
          _ = t := ih

theorem bitsToNat_natToBits (w n : Nat) : bitsToNat (natToBits w n) = n % 2 ^ w := by
  induction w generalizing n with
  | zero => simp [natToBits, bitsToNat, Nat.mod_one]
  | succ w ih =>
      simp only [natToBits]
      rw [bitsToNat_cons, natToBits_length, ih, Nat.testBit_to_div_mod]
      have h2 : n % 2 ^ (w + 1) = n % 2 ^ w + 2 ^ w * (n / 2 ^ w % 2) :=
        Nat.mod_pow_succ
      rw [h2]
      by_cases hb : n / 2 ^ w % 2 = 1
      · rw [hb]
        norm_num
        ring
      · have hb0 : n / 2 ^ w % 2 = 0 := by omega
        rw [hb0]
        norm_num

theorem chunkGo_fuel {α : Type} (k : Nat) (hk : 0 < k) :
    ∀ f1 f2 (l : List α), l.length ≤ f1 → l.length ≤ f2 →
      chunkGo k f1 l = chunkGo k f2 l := by
  intro f1
  induction f1 with
  | zero =>
      intro f2 l h1 _
      have : l = [] := List.length_eq_zero.mp (Nat.le_zero.mp h1)
      subst this
      cases f2 <;> rfl
  | succ f1 ih =>
      intro f2 l h1 h2
      cases l with
      | nil => cases f2 <;> rfl
      | cons x xs =>
          cases f2 with
          | zero => simp at h2
          | succ f2 =>
              simp only [chunkGo]
              have hd : ((x :: xs).drop k).length ≤ f1 := by
                simp only [List.length_drop, List.length_cons]
                simp only [List.length_cons] at h1
                omega
              have hd2 : ((x :: xs).drop k).length ≤ f2 := by
                simp only [List.length_drop, List.length_cons]
                simp only [List.length_cons] at h2
                omega
              rw [ih f2 _ hd hd2]

theorem chunkExact_nil {α : Type} (k : Nat) : chunkExact k ([] : List α) = [] := by
  unfold chunkExact
  split
  · rfl
  · rfl

theorem chunkExact_cons {α : Type} (k : Nat) (hk : 0 < k) (a rest : List α)
    (ha : a.length = k) : chunkExact k (a ++ rest) = a :: chunkExact k rest := by
  unfold chunkExact
  rw [if_neg (by omega), if_neg (by omega)]
  cases a with
  | nil => simp at ha; omega
  | cons x xs =>
      show chunkGo k (((x :: xs) ++ rest).length) (x :: (xs ++ rest)) = _
      have hlen : ((x :: xs) ++ rest).length = (xs ++ rest).length + 1 := by simp
      rw [hlen]
      simp only [chunkGo]
      have htake : (x :: (xs ++ rest)).take k = x :: xs := by
        have := List.take_left (x :: xs) rest
        rw [ha] at this
        simpa using this
      have hdrop : (x :: (xs ++ rest)).drop k = rest := by
        have := List.drop_left (x :: xs) rest
        rw [ha] at this
        simpa using this
      rw [htake, hdrop]
      have hfuel : rest.length ≤ (xs ++ rest).length := by simp
      rw [chunkGo_fuel k hk _ _ rest hfuel (Nat.le_refl _)]

theorem chunk_flatMap {α β : Type} (k : Nat) (hk : 0 < k) (f : α → List β)
    (hf : ∀ x, (f x).length = k) :
    ∀ l : List α, chunkExact k (l.flatMap f) = l.map f := by
  intro l
  induction l with
  | nil => simp [chunkExact_nil]
  | cons x xs ih =>
      rw [List.flatMap_cons, chunkExact_cons k hk _ _ (hf x), ih, List.map_cons]

theorem chunkExact_flatten {α : Type} (k : Nat) (hk : 0 < k) :
    ∀ l : List α, (chunkExact k l).flatten = l := by
  have aux : ∀ fuel (l : List α), l.length ≤ fuel →
      (chunkGo k fuel l).flatten = l := by
    intro fuel
    induction fuel with
    | zero =>
        intro l h1
        have : l = [] := List.length_eq_zero.mp (Nat.le_zero.mp h1)
        subst this
        rfl
    | succ fuel ih =>
        intro l h1
        cases l with
        | nil => rfl
        | cons x xs =>
            simp only [chunkGo, List.flatten_cons]
            have hlen2 : ((x :: xs).drop k).length ≤ fuel := by
              simp only [List.length_drop, List.length_cons]
              simp only [List.length_cons] at h1
              omega
            rw [ih _ hlen2]
            exact List.take_append_drop k (x :: xs)
  intro l
  unfold chunkExact
  rw [if_neg (by omega)]
  exact aux l.length l (Nat.le_refl _)

theorem chunkExact_length_of_mul {α : Type} (k : Nat) (hk : 0 < k) :
    ∀ (m : Nat) (l : List α), l.length = k * m → (chunkExact k l).length = m := by
  intro m
  induction m with
  | zero =>
      intro l hl
      simp only [Nat.mul_zero] at hl
      have : l = [] := List.length_eq_zero.mp hl
      subst this
      simp [chunkExact_nil]
  | succ m ih =>
      intro l hl
      have hkl : k ≤ l.length := by
        rw [hl]
        calc k = k * 1 := by ring
          _ ≤ k * (m + 1) := Nat.mul_le_mul_left k (by omega)
      have hsplit : l = l.take k ++ l.drop k := (List.take_append_drop k l).symm
      have htk : (l.take k).length = k := by
        rw [List.length_take]
        omega
      rw [hsplit, chunkExact_cons k hk _ _ htk, List.length_cons]
      have hdl : (l.drop k).length = k * m := by
        simp only [List.length_drop, hl, Nat.mul_succ]
        omega
      rw [ih (l.drop k) hdl]

theorem chunkExact_mem_length {α : Type} (k : Nat) (hk : 0 < k) :
    ∀ (m : Nat) (l : List α) (p : List α), l.length = k * m →
      p ∈ chunkExact k l → p.length = k := by
  intro m
  induction m with
  | zero =>
      intro l p hl hp
      simp only [Nat.mul_zero] at hl
      have : l = [] := List.length_eq_zero.mp hl
      subst this
      rw [chunkExact_nil] at hp
      simp at hp
  | succ m ih =>
      intro l p hl hp
      have hkl : k ≤ l.length := by
        rw [hl]
        calc k = k * 1 := by ring
          _ ≤ k * (m + 1) := Nat.mul_le_mul_left k (by omega)
      have hsplit : l = l.take k ++ l.drop k := (List.take_append_drop k l).symm
      have htk : (l.take k).length = k := by
        rw [List.length_take]
        omega
      rw [hsplit, chunkExact_cons k hk _ _ htk] at hp
      rcases List.mem_cons.mp hp with h | h
      · rw [h, htk]
      · have hdl : (l.drop k).length = k * m := by
          simp only [List.length_drop, hl, Nat.mul_succ]
          omega
        exact ih (l.drop k) p hdl h

theorem flatMap_length_const {α β : Type} (f : α → List β) (k : Nat)
    (hf : ∀ x, (f x).length = k) :
    ∀ l : List α, (l.flatMap f).length = k * l.length := by
  intro l
  induction l with
  | nil => simp
  | cons x xs ih =>
      rw [List.flatMap_cons, List.length_append, hf, ih, List.length_cons]
      ring

/- ## Length lemmas for the hash pipeline -/

theorem rounds256_length :
    ∀ (ks ws : List Nat) (a b c d e f g hv : Nat),
      (rounds256 ks ws a b c d e f g hv).length = 8 := by
  intro ks
  induction ks with
  | nil => intro ws a b c d e f g hv; rfl
  | cons k ks ih =>
      intro ws a b c d e f g hv
      cases ws with
      | nil => rfl
      | cons w ws => simpa [rounds256] using ih ws _ _ _ _ _ _ _ _

theorem rounds512_length :
    ∀ (ks ws : List Nat) (a b c d e f g hv : Nat),
      (rounds512 ks ws a b c d e f g hv).length = 8 := by
  intro ks
  induction ks with
  | nil => intro ws a b c d e f g hv; rfl
  | cons k ks ih =>
      intro ws a b c d e f g hv
      cases ws with
      | nil => rfl
      | cons w ws => simpa [rounds512] using ih ws _ _ _ _ _ _ _ _

theorem compress256_length (hs block : List Nat) (h : hs.length = 8) :
    (compress256 hs block).length = 8 := by
  simp [compress256, List.length_zipWith, rounds256_length, h]

theorem compress512_length (hs block : List Nat) (h : hs.length = 8) :
    (compress512 hs block).length = 8 := by
  simp [compress512, List.length_zipWith, rounds512_length, h]

theorem foldl_compress256_length :
    ∀ (blocks : List (List Nat)) (hs : List Nat), hs.length = 8 →
      (blocks.foldl compress256 hs).length = 8 := by
  intro blocks
  induction blocks with
  | nil => intro hs h; simpa using h
  | cons b bs ih =>
      intro hs h
      rw [List.foldl_cons]
      exact ih _ (compress256_length hs b h)

theorem foldl_compress512_length :
    ∀ (blocks : List (List Nat)) (hs : List Nat), hs.length = 8 →
      (blocks.foldl compress512 hs).length = 8 := by
  intro blocks
  induction blocks with
  | nil => intro hs h; simpa using h
  | cons b bs ih =>
      intro hs h
      rw [List.foldl_cons]
      exact ih _ (compress512_length hs b h)

theorem sha256_length (msg : List Nat) : (sha256 msg).length = 32 := by
  unfold sha256
  rw [flatMap_length_const word32ToBytes 4 (fun w => rfl)]
  rw [foldl_compress256_length _ H256init rfl]

theorem sha512_length (msg : List Nat) : (sha512 msg).length = 64 := by
  unfold sha512
  rw [flatMap_length_const word64ToBytes 8 (fun w => rfl)]
  rw [foldl_compress512_length _ H512init rfl]

theorem hmacSha512_length (key msg : List Nat) :
    (hmacSha512 key msg).length = 64 := by
  unfold hmacSha512
  exact sha512_length _

theorem pbkdf2Chain_length (key : List Nat) :
    ∀ (n : Nat) (u acc : List Nat), acc.length = 64 →
      (pbkdf2Chain key n u acc).length = 64 := by
  intro n
  induction n with
  | zero => intro u acc h; simpa [pbkdf2Chain] using h
  | succ n ih =>
      intro u acc h
      simp only [pbkdf2Chain]
      apply ih
      simp [zipXor, List.length_zipWith, h, hmacSha512_length]

theorem pbkdf2Block_length (key salt : List Nat) (iters blockIx : Nat) :
    (pbkdf2Block key salt iters blockIx).length = 64 := by
  unfold pbkdf2Block
  exact pbkdf2Chain_length key _ _ _ (hmacSha512_length _ _)

theorem pbkdf2_out_length (key salt : List Nat) (iters : Nat) :
    (pbkdf2HmacSha512 key salt iters 64).length = 64 := by
  unfold pbkdf2HmacSha512
  have h1 : (64 + 63) / 64 = 1 := by norm_num
  rw [h1]
  simp [List.range_succ, List.length_take, pbkdf2Block_length]

/- ## Join/split lemmas -/

theorem splitAux_no_space (w : List Nat) :
    32 ∉ w → ∀ (rest cur : List Nat),
      splitAux (w ++ rest) cur = splitAux rest (w.reverse ++ cur) := by
  induction w with
  | nil => intro _ rest cur; simp
  | cons b w ih =>
      intro hw rest cur
      have hb : ¬(b = 32) := fun he => hw (by rw [he]; exact List.mem_cons_self _ _)
      have hw' : 32 ∉ w := fun hm => hw (List.mem_cons_of_mem _ hm)
      calc splitAux ((b :: w) ++ rest) cur
          = splitAux (w ++ rest) (b :: cur) := by simp [splitAux, hb]
        _ = splitAux rest (w.reverse ++ (b :: cur)) := ih hw' rest (b :: cur)
        _ = splitAux rest ((b :: w).reverse ++ cur) := by simp

theorem splitWS_joinWords :
    ∀ ws : List (List Nat), (∀ w ∈ ws, w ≠ []) → (∀ w ∈ ws, 32 ∉ w) →
      splitWS (joinWords ws) = ws := by
  intro ws
  induction ws with
  | nil => intro _ _; rfl
  | cons w rest ih =>
      intro h1 h2
      have hw1 : w ≠ [] := h1 w (List.mem_cons_self _ _)
      have hw2 : 32 ∉ w := h2 w (List.mem_cons_self _ _)
      cases rest with
      | nil =>
          have h := splitAux_no_space w hw2 [] []
          rw [List.append_nil] at h
          show splitWS (joinWords [w]) = [w]
          have hj : joinWords [w] = w := rfl
          rw [hj]
          unfold splitWS
          rw [h]
          simp [splitAux, hw1]
      | cons w2 rest2 =>
          have hj : joinWords (w :: w2 :: rest2) = w ++ 32 :: joinWords (w2 :: rest2) := rfl
          have ihh := ih (fun x hx => h1 x (List.mem_cons_of_mem _ hx))
            (fun x hx => h2 x (List.mem_cons_of_mem _ hx))
          unfold splitWS at ihh
          show splitWS _ = _
          rw [hj]
          unfold splitWS
          rw [splitAux_no_space w hw2 (32 :: joinWords (w2 :: rest2)) []]
          simp only [splitAux, if_pos]
          rw [List.filter_cons]
          simp only [List.append_nil, List.reverse_reverse]
          rw [if_pos (by simpa using hw1)]
          rw [ihh]

/- ## Lookup and traversal lemmas -/

theorem lookupIdxAux_get (l : List (List Nat)) :
    l.Nodup → ∀ (i : Nat) (h : i < l.length) (acc : Nat),
      lookupIdxAux acc l (l.get ⟨i, h⟩) = some (acc + i) := by
  induction l with
  | nil => intro _ i h; simp at h
  | cons x xs ih =>
      intro hnd i h acc
      cases i with
      | zero => simp [lookupIdxAux]
      | succ i =>
          have hi : i < xs.length := by simpa using h
          have hget : (x :: xs).get ⟨i + 1, h⟩ = xs.get ⟨i, hi⟩ := rfl
          rw [hget]
          have hx : ¬(x = xs.get ⟨i, hi⟩) := by
            intro he
            have hmem : xs.get ⟨i, hi⟩ ∈ xs := List.get_mem xs i hi
            rw [← he] at hmem
            exact (List.nodup_cons.mp hnd).1 hmem
          simp only [lookupIdxAux, if_neg hx, if_neg (by omega : ¬(acc + 1 = 0))]
          rw [ih (List.nodup_cons.mp hnd).2 i hi (acc + 1)]
          congr 1
          omega

theorem lookupIdx_get (l : List (List Nat)) (hnd : l.Nodup)
    (i : Nat) (h : i < l.length) :
    lookupIdx l (l.get ⟨i, h⟩) = some i := by
  have := lookupIdxAux_get l hnd i h 0
  simpa [lookupIdx] using this

theorem mapExcept_map_ok {α β ε : Type} (g : β → Except ε α) (f : α → β) :
    ∀ l : List α, (∀ x ∈ l, g (f x) = .ok x) → mapExcept g (l.map f) = .ok l := by
  intro l
  induction l with
  | nil => intro _; rfl
  | cons x xs ih =>
      intro h
      rw [List.map_cons]
      simp only [mapExcept]
      rw [h x (List.mem_cons_self _ _), ih (fun y hy => h y (List.mem_cons_of_mem _ hy))]

/- ## Hex digit lemmas -/

theorem hexDigitL_ge (d : Nat) : 48 ≤ hexDigitL d := by
  unfold hexDigitL
  split <;> omega

theorem hexDigitU_ge (d : Nat) : 48 ≤ hexDigitU d := by
  unfold hexDigitU
  split <;> omega

theorem hexDigitL_charset (d : Nat) (hd : d < 16) :
    (48 ≤ hexDigitL d ∧ hexDigitL d ≤ 57) ∨ (97 ≤ hexDigitL d ∧ hexDigitL d ≤ 102) := by
  unfold hexDigitL
  split
  · left; omega
  · right; omega

theorem hexDigitU_charset (d : Nat) (hd : d < 16) :
    (48 ≤ hexDigitU d ∧ hexDigitU d ≤ 57) ∨ (65 ≤ hexDigitU d ∧ hexDigitU d ≤ 70) := by
  unfold hexDigitU
  split
  · left; omega
  · right; omega

theorem hexDigitVal_hexDigitL (d : Nat) (hd : d < 16) :
    hexDigitVal (hexDigitL d) = some d := by
  unfold hexDigitL hexDigitVal
  by_cases h : d < 10
  · rw [if_pos h, if_pos (by omega)]
    congr 1
    omega
  · rw [if_neg h, if_neg (by omega), if_pos (by omega)]
    congr 1
    omega

theorem hexDigitVal_hexDigitU (d : Nat) (hd : d < 16) :
    hexDigitVal (hexDigitU d) = some d := by
  unfold hexDigitU hexDigitVal
  by_cases h : d < 10
  · rw [if_pos h, if_pos (by omega)]
    congr 1
    omega
  · rw [if_neg h, if_neg (by omega), if_neg (by omega), if_pos (by omega)]
    congr 1
    omega

theorem parsePair_hexL (x : Nat) (hx : x < 256) :
    parsePair (hexDigitL (x / 16)) (hexDigitL (x % 16)) = .ok x := by
  have h1 : x / 16 < 16 := by omega
  have h2 : x % 16 < 16 := by omega
  have ha : 48 ≤ hexDigitL (x / 16) := hexDigitL_ge _
  unfold parsePair
  rw [if_neg (by omega), if_neg (by omega)]
  rw [hexDigitVal_hexDigitL _ h1, hexDigitVal_hexDigitL _ h2]
  show Except.ok (16 * (x / 16) + x % 16) = Except.ok x
  congr 1
  omega

theorem parsePair_hexU (x : Nat) (hx : x < 256) :
    parsePair (hexDigitU (x / 16)) (hexDigitU (x % 16)) = .ok x := by
  have h1 : x / 16 < 16 := by omega
  have h2 : x % 16 < 16 := by omega
  have ha : 48 ≤ hexDigitU (x / 16) := hexDigitU_ge _
  unfold parsePair
  rw [if_neg (by omega), if_neg (by omega)]
  rw [hexDigitVal_hexDigitU _ h1, hexDigitVal_hexDigitU _ h2]
  show Except.ok (16 * (x / 16) + x % 16) = Except.ok x
  congr 1
  omega

theorem isWSB_eq_false_of_ge (c : Nat) (hc : 48 ≤ c) : isWSB c = false := by
  unfold isWSB
  simp only [Bool.or_eq_false_iff, beq_eq_false_iff_ne]
  omega

theorem dropWhile_eq_self_of_false {p : Nat → Bool} :
    ∀ s : List Nat, (∀ c ∈ s, p c = false) → s.dropWhile p = s := by
  intro s h
  cases s with
  | nil => rfl
  | cons c rest =>
      rw [List.dropWhile_cons, h c (List.mem_cons_self _ _)]
      simp

theorem trimBytes_id (s : List Nat) (h : ∀ c ∈ s, isWSB c = false) :
    trimBytes s = s := by
  unfold trimBytes
  rw [dropWhile_eq_self_of_false s h]
  rw [dropWhile_eq_self_of_false s.reverse (fun c hc => h c (List.mem_reverse.mp hc))]
  exact List.reverse_reverse s

theorem decodePairs_map_ok (f : Nat → List Nat) :
    ∀ l : List Nat, (∀ x ∈ l, parsePair ((f x).getD 0 0) ((f x).getD 1 0) = .ok x) →
      decodePairs (l.map f) = .ok l := by
  intro l
  induction l with
  | nil => intro _; rfl
  | cons x xs ih =>
      intro h
      rw [List.map_cons]
      simp only [decodePairs]
      rw [h x (List.mem_cons_self _ _), ih (fun y hy => h y (List.mem_cons_of_mem _ hy))]

/- ## from_hex on well-formed digit strings -/

theorem getD_mem_of_lt {α : Type} (l : List α) (i : Nat) (d : α)
    (h : i < l.length) : l.getD i d ∈ l := by
  rw [List.getD_eq_getElem l d h]
  exact List.getElem_mem h

theorem isContB_eq_false_of_lt (c : Nat) (h : c < 128) : isContB c = false := by
  unfold isContB
  exact decide_eq_false (by omega)

/-- a string of non-continuation bytes and even length passes every slice
bound check of split_n -/
theorem splitScan_ascii : ∀ l : List Nat, (∀ c ∈ l, isContB c = false) →
    l.length % 2 = 0 → splitScan l = none
  | [], _, _ => rfl
  | [_], _, he => by simp at he
  | a :: b :: rest, hc, he => by
      have hr : isContB (rest.getD 0 0) = false := by
        cases rest with
        | nil => exact isContB_eq_false_of_lt 0 (by omega)
        | cons x xs =>
            exact hc x (List.mem_cons_of_mem _ (List.mem_cons_of_mem _
              (List.mem_cons_self _ _)))
      have he2 : rest.length % 2 = 0 := by
        simp only [List.length_cons] at he
        omega
      have hrec := splitScan_ascii rest
        (fun c hcm => hc c (List.mem_cons_of_mem _ (List.mem_cons_of_mem _ hcm)))
        he2
      show (if isContB (rest.getD 0 0) then some PanicKind.charBoundary
        else splitScan rest) = none
      rw [hr]
      exact hrec

/-- a string on which split_n slices without panicking has even length -/
theorem splitScan_none_even : ∀ l : List Nat, splitScan l = none →
    l.length % 2 = 0
  | [], _ => rfl
  | [_], h => by simp [splitScan] at h
  | a :: b :: rest, h => by
      by_cases hb : isContB (rest.getD 0 0) = true
      · exfalso
        have hsome : splitScan (a :: b :: rest) = some PanicKind.charBoundary := by
          show (if isContB (rest.getD 0 0) then some PanicKind.charBoundary
            else splitScan rest) = some PanicKind.charBoundary
          rw [hb]
          exact if_pos rfl
        rw [hsome] at h
        exact Option.noConfusion h
      · have hb2 : isContB (rest.getD 0 0) = false := by
          revert hb
          cases isContB (rest.getD 0 0) <;> simp
        have hstep : splitScan (a :: b :: rest) = splitScan rest := by
          show (if isContB (rest.getD 0 0) then some PanicKind.charBoundary
            else splitScan rest) = splitScan rest
          rw [hb2]
          exact if_neg Bool.false_ne_true
        rw [hstep] at h
        have hrec := splitScan_none_even rest h
        simp only [List.length_cons]
        omega

theorem from_hex_digits (b : List Nat) (byteFn : Nat → List Nat)
    (hne : b ≠ [])
    (hlen2 : ∀ x, (byteFn x).length = 2)
    (hchar : ∀ x ∈ b, ∀ c ∈ byteFn x, 48 ≤ c ∧ c ≤ 102)
    (hdec : ∀ x ∈ b, parsePair ((byteFn x).getD 0 0) ((byteFn x).getD 1 0) = .ok x) :
    from_hex (b.flatMap byteFn) = .ok b ∧
    from_hex (strBytes "0x" ++ b.flatMap byteFn) = .ok b := by
  have hlen : (b.flatMap byteFn).length = 2 * b.length :=
    flatMap_length_const byteFn 2 hlen2 b
  have hb1 : 1 ≤ b.length := by
    cases b with
    | nil => exact absurd rfl hne
    | cons x xs => simp
  have hcharAll : ∀ c ∈ b.flatMap byteFn, 48 ≤ c ∧ c ≤ 102 := by
    intro c hc
    rcases List.mem_flatMap.mp hc with ⟨x, hx, hcx⟩
    exact hchar x hx c hcx
  have hnows : ∀ c ∈ b.flatMap byteFn, isWSB c = false := fun c hc =>
    isWSB_eq_false_of_ge c (hcharAll c hc).1
  have htrim : trimBytes (b.flatMap byteFn) = b.flatMap byteFn :=
    trimBytes_id _ hnows
  have hdecode : decodePairs (chunkExact 2 (b.flatMap byteFn)) = .ok b := by
    rw [chunk_flatMap 2 (by norm_num) byteFn hlen2 b]
    exact decodePairs_map_ok byteFn b hdec
  have hnotox : ¬((b.flatMap byteFn).take 2 = strBytes "0x") := by
    cases b with
    | nil => exact absurd rfl hne
    | cons x xs =>
        rcases List.length_eq_two.mp (hlen2 x) with ⟨c1, c2, hfx⟩
        intro habs
        have htake : ((x :: xs).flatMap byteFn).take 2 = [c1, c2] := by
          rw [List.flatMap_cons, hfx]
          rfl
        rw [htake] at habs
        have hc2 : c2 ∈ byteFn x := by rw [hfx]; simp
        have := (hchar x (List.mem_cons_self _ _) c2 hc2).2
        have h120 : c2 = 120 := by
          have : [c1, c2] = [48, 120] := by
            simpa [strBytes] using habs
          simpa using congrArg (fun l => l.getD 1 0) this
        omega
  have hascii : ∀ c ∈ b.flatMap byteFn, c < 128 := by
    intro c hc
    have := hcharAll c hc
    omega
  have hscan : splitScan (b.flatMap byteFn) = none :=
    splitScan_ascii _ (fun c hc => isContB_eq_false_of_lt c (hascii c hc))
      (by omega)
  constructor
  · have hnocb : ¬(2 < (b.flatMap byteFn).length ∧
        isContB ((b.flatMap byteFn).getD 2 0) = true) := by
      rintro ⟨hl, hcb⟩
      have hmem := getD_mem_of_lt (b.flatMap byteFn) 2 0 hl
      rw [isContB_eq_false_of_lt _ (hascii _ hmem)] at hcb
      exact Bool.noConfusion hcb
    unfold from_hex
    rw [if_neg (by omega)]
    rw [if_neg (by omega)]
    rw [if_neg hnocb]
    unfold stripOx
    rw [if_neg hnotox, htrim]
    rw [if_neg (by omega), hscan, hdecode]
  · have hsplit : (strBytes "0x" ++ b.flatMap byteFn).length
        = 2 + (b.flatMap byteFn).length := by
      simp [strBytes]
      omega
    have hnocb2 : ¬(2 < (strBytes "0x" ++ b.flatMap byteFn).length ∧
        isContB ((strBytes "0x" ++ b.flatMap byteFn).getD 2 0) = true) := by
      rintro ⟨hl, hcb⟩
      have h0x : strBytes "0x" = [48, 120] := rfl
      rw [h0x] at hcb
      simp only [List.cons_append, List.nil_append, List.getD_cons_succ,
        List.getD_cons_zero] at hcb
      have hpos : 0 < (b.flatMap byteFn).length := by omega
      have hmem := getD_mem_of_lt (b.flatMap byteFn) 0 0 hpos
      rw [isContB_eq_false_of_lt _ (hascii _ hmem)] at hcb
      exact Bool.noConfusion hcb
    unfold from_hex
    rw [if_neg (by omega)]
    rw [if_neg (by omega)]
    rw [if_neg hnocb2]
    unfold stripOx
    have htake2 : (strBytes "0x" ++ b.flatMap byteFn).take 2 = strBytes "0x" := by
      have := List.take_left (strBytes "0x") (b.flatMap byteFn)
      simpa [strBytes] using this
    have hdrop2 : (strBytes "0x" ++ b.flatMap byteFn).drop 2 = b.flatMap byteFn := by
      have := List.drop_left (strBytes "0x") (b.flatMap byteFn)
      simpa [strBytes] using this
    rw [if_pos htake2, hdrop2, htrim]
    rw [if_neg (by omega), hscan, hdecode]

theorem flatMap_pair_window {f : Nat → List Nat} (hf : ∀ x, (f x).length = 2) :
    ∀ (l : List Nat) (i : Nat) (h : i < l.length),
      ((l.flatMap f).drop (2 * i)).take 2 = f (l.get ⟨i, h⟩) := by
  intro l
  induction l with
  | nil => intro i h; simp at h
  | cons x xs ih =>
      intro i h
      rcases List.length_eq_two.mp (hf x) with ⟨c1, c2, hfx⟩
      cases i with
      | zero =>
          have hget : (x :: xs).get ⟨0, h⟩ = x := rfl
          rw [List.flatMap_cons, hget, hfx]
          rfl
      | succ i =>
          have hi : i < xs.length := by simpa using h
          have hstep : 2 * (i + 1) = 2 * i + 1 + 1 := by ring
          rw [List.flatMap_cons, hfx, hstep]
          show ((c1 :: c2 :: xs.flatMap f).drop (2 * i + 1 + 1)).take 2 = _
          rw [List.drop_succ_cons, List.drop_succ_cons]
          exact ih i hi

/- ## Claim theorems -/

/-- C1: Seed::new(m, p) returns exactly the PBKDF2-HMAC-SHA512 of the
phrase bytes (as stored) with salt "mnemonic" ++ p, 2048 iterations and a
64-byte output. -/
theorem c1_seed_new_is_pbkdf2 (m : Mnemonic) (password : List Nat) :
    (Seed.new m password).bytes =
      pbkdf2HmacSha512 (Mnemonic.phrase m) (strBytes "mnemonic" ++ password) 2048 64 := by
  simp only [Seed.new, cryptoPbkdf2]

/-- C4: seed derivation is deterministic — equal phrases and equal passwords
give byte-identical seeds across two runs. -/
theorem c4_seed_deterministic (m1 m2 : Mnemonic) (p1 p2 : List Nat)
    (hm : Mnemonic.phrase m1 = Mnemonic.phrase m2) (hp : p1 = p2) :
    (Seed.new m1 p1).bytes = (Seed.new m2 p2).bytes := by
  simp only [Seed.new, hm, hp]

/-- witness for C4 at a concrete mnemonic and password -/
theorem c4_seed_deterministic_witness :
    (Seed.new ⟨[[97, 98, 99]], [1, 2]⟩ [100]).bytes =
      (Seed.new ⟨[[97, 98, 99]], [1, 2]⟩ [100]).bytes :=
  c4_seed_deterministic ⟨[[97, 98, 99]], [1, 2]⟩ ⟨[[97, 98, 99]], [1, 2]⟩ [100] [100] rfl rfl

/-- C10: from_hex panics on the empty string (out-of-bounds slice of the
first two characters) and on exactly "0x" (usize underflow in split_n),
returning no hex-decoding error in either case. -/
theorem c10_from_hex_panics :
    from_hex [] = HexResult.panicked PanicKind.sliceOutOfBounds ∧
    from_hex (strBytes "0x") = HexResult.panicked PanicKind.subUnderflow := by
  constructor
  · rfl
  · rfl

/-- C6: the hex renderings emit exactly two hex digits per byte in buffer
order; the lowercase rendering uses lowercase digit letters, the uppercase
rendering uppercase ones, and the alternate (prefixed) form is exactly "0x"
prepended to the plain form. -/
theorem c6_hex_rendering (s : Seed) (hb : ∀ x ∈ s.bytes, x < 256) :
    s.lowerHex true = strBytes "0x" ++ s.lowerHex false ∧
    s.upperHex true = strBytes "0x" ++ s.upperHex false ∧
    (s.lowerHex false).length = 2 * s.bytes.length ∧
    (s.upperHex false).length = 2 * s.bytes.length ∧
    (∀ (i : Nat) (h : i < s.bytes.length),
      ((s.lowerHex false).drop (2 * i)).take 2 = byteHexL (s.bytes.get ⟨i, h⟩) ∧
      ((s.upperHex false).drop (2 * i)).take 2 = byteHexU (s.bytes.get ⟨i, h⟩)) ∧
    (∀ c ∈ s.lowerHex false, (48 ≤ c ∧ c ≤ 57) ∨ (97 ≤ c ∧ c ≤ 102)) ∧
    (∀ c ∈ s.upperHex false, (48 ≤ c ∧ c ≤ 57) ∨ (65 ≤ c ∧ c ≤ 70)) := by
  refine ⟨by simp [Seed.lowerHex], by simp [Seed.upperHex], ?_, ?_, ?_, ?_, ?_⟩
  · simp only [Seed.lowerHex, Bool.false_eq_true, if_neg, List.nil_append]
    exact flatMap_length_const byteHexL 2 (fun x => rfl) s.bytes
  · simp only [Seed.upperHex, Bool.false_eq_true, if_neg, List.nil_append]
    exact flatMap_length_const byteHexU 2 (fun x => rfl) s.bytes
  · intro i h
    constructor
    · simp only [Seed.lowerHex, Bool.false_eq_true, if_neg, List.nil_append]
      exact @flatMap_pair_window byteHexL (fun x => rfl) s.bytes i h
    · simp only [Seed.upperHex, Bool.false_eq_true, if_neg, List.nil_append]
      exact @flatMap_pair_window byteHexU (fun x => rfl) s.bytes i h
  · intro c hc
    simp only [Seed.lowerHex, Bool.false_eq_true, if_neg, List.nil_append] at hc
    rcases List.mem_flatMap.mp hc with ⟨x, hx, hcx⟩
    have hx256 := hb x hx
    simp only [byteHexL, List.mem_cons, List.not_mem_nil, or_false] at hcx
    rcases hcx with h1 | h1 <;> subst h1
    · exact hexDigitL_charset (x / 16) (by omega)
    · exact hexDigitL_charset (x % 16) (by omega)
  · intro c hc
    simp only [Seed.upperHex, Bool.false_eq_true, if_neg, List.nil_append] at hc
    rcases List.mem_flatMap.mp hc with ⟨x, hx, hcx⟩
    have hx256 := hb x hx
    simp only [byteHexU, List.mem_cons, List.not_mem_nil, or_false] at hcx
    rcases hcx with h1 | h1 <;> subst h1
    · exact hexDigitU_charset (x / 16) (by omega)
    · exact hexDigitU_charset (x % 16) (by omega)

/-- counterexample to C7 as stated: for the empty byte buffer, decoding the
rendered hex text panics instead of returning the buffer -/
theorem c7_empty_buffer_counterexample :
    from_hex (Seed.lowerHex ⟨[]⟩ false) ≠ HexResult.ok [] ∧
    from_hex (Seed.lowerHex ⟨[]⟩ false) = HexResult.panicked PanicKind.sliceOutOfBounds ∧
    from_hex (Seed.lowerHex ⟨[]⟩ true) = HexResult.panicked PanicKind.subUnderflow := by
  refine ⟨?_, rfl, rfl⟩
  decide

/-- C7 amended: for every nonempty byte buffer, decoding the rendered hex
text — lower or upper case, with or without the 0x prefix — returns exactly
the original bytes. -/
theorem c7_hex_roundtrip_amended (b : List Nat) (hne : b ≠ [])
    (hb : ∀ x ∈ b, x < 256) :
    from_hex (Seed.lowerHex ⟨b⟩ false) = HexResult.ok b ∧
    from_hex (Seed.lowerHex ⟨b⟩ true) = HexResult.ok b ∧
    from_hex (Seed.upperHex ⟨b⟩ false) = HexResult.ok b ∧
    from_hex (Seed.upperHex ⟨b⟩ true) = HexResult.ok b := by
  have hcharL : ∀ x ∈ b, ∀ c ∈ byteHexL x, 48 ≤ c ∧ c ≤ 102 := by
    intro x hx c hc
    have hx256 := hb x hx
    simp only [byteHexL, List.mem_cons, List.not_mem_nil, or_false] at hc
    rcases hc with h1 | h1 <;> subst h1
    · rcases hexDigitL_charset (x / 16) (by omega) with h | h <;> omega
    · rcases hexDigitL_charset (x % 16) (by omega) with h | h <;> omega
  have hcharU : ∀ x ∈ b, ∀ c ∈ byteHexU x, 48 ≤ c ∧ c ≤ 102 := by
    intro x hx c hc
    have hx256 := hb x hx
    simp only [byteHexU, List.mem_cons, List.not_mem_nil, or_false] at hc
    rcases hc with h1 | h1 <;> subst h1
    · rcases hexDigitU_charset (x / 16) (by omega) with h | h <;> omega
    · rcases hexDigitU_charset (x % 16) (by omega) with h | h <;> omega
  have hdecL : ∀ x ∈ b, parsePair ((byteHexL x).getD 0 0) ((byteHexL x).getD 1 0)
      = .ok x := fun x hx => parsePair_hexL x (hb x hx)
  have hdecU : ∀ x ∈ b, parsePair ((byteHexU x).getD 0 0) ((byteHexU x).getD 1 0)
      = .ok x := fun x hx => parsePair_hexU x (hb x hx)
  have hL := from_hex_digits b byteHexL hne (fun x => rfl) hcharL hdecL
  have hU := from_hex_digits b byteHexU hne (fun x => rfl) hcharU hdecU
  refine ⟨?_, ?_, ?_, ?_⟩
  · simpa [Seed.lowerHex] using hL.1
  · simpa [Seed.lowerHex] using hL.2
  · simpa [Seed.upperHex] using hU.1
  · simpa [Seed.upperHex] using hU.2

/-- witness for C7 amended at the buffer [11, 171] -/
theorem c7_hex_roundtrip_amended_witness :
    from_hex (Seed.lowerHex ⟨[11, 171]⟩ false) = HexResult.ok [11, 171] ∧
    from_hex (Seed.lowerHex ⟨[11, 171]⟩ true) = HexResult.ok [11, 171] ∧
    from_hex (Seed.upperHex ⟨[11, 171]⟩ false) = HexResult.ok [11, 171] ∧
    from_hex (Seed.upperHex ⟨[11, 171]⟩ true) = HexResult.ok [11, 171] :=
  c7_hex_roundtrip_amended [11, 171] (by decide) (by decide)

/-- witness for C6 at the seed buffer [0, 255] -/
theorem c6_hex_rendering_witness :
    (Seed.lowerHex ⟨[0, 255]⟩ true = strBytes "0x" ++ Seed.lowerHex ⟨[0, 255]⟩ false ∧
     Seed.upperHex ⟨[0, 255]⟩ true = strBytes "0x" ++ Seed.upperHex ⟨[0, 255]⟩ false ∧
     (Seed.lowerHex ⟨[0, 255]⟩ false).length = 2 * (Seed.mk [0, 255]).bytes.length ∧
     (Seed.upperHex ⟨[0, 255]⟩ false).length = 2 * (Seed.mk [0, 255]).bytes.length ∧
     (∀ (i : Nat) (h : i < (Seed.mk [0, 255]).bytes.length),
       ((Seed.lowerHex ⟨[0, 255]⟩ false).drop (2 * i)).take 2
           = byteHexL ((Seed.mk [0, 255]).bytes.get ⟨i, h⟩) ∧
       ((Seed.upperHex ⟨[0, 255]⟩ false).drop (2 * i)).take 2
           = byteHexU ((Seed.mk [0, 255]).bytes.get ⟨i, h⟩)) ∧
     (∀ c ∈ Seed.lowerHex ⟨[0, 255]⟩ false, (48 ≤ c ∧ c ≤ 57) ∨ (97 ≤ c ∧ c ≤ 102)) ∧
     (∀ c ∈ Seed.upperHex ⟨[0, 255]⟩ false, (48 ≤ c ∧ c ≤ 57) ∨ (65 ≤ c ∧ c ≤ 70))) :=
  c6_hex_rendering ⟨[0, 255]⟩ (by decide)

theorem decodePairs_ok_length :
    ∀ (cs : List (List Nat)) (bs : List Nat),
      decodePairs cs = .ok bs → bs.length = cs.length := by
  intro cs
  induction cs with
  | nil =>
      intro bs h
      simp only [decodePairs] at h
      cases h
      rfl
  | cons c cs ih =>
      intro bs h
      simp only [decodePairs] at h
      rcases hp : parsePair (c.getD 0 0) (c.getD 1 0) with v | e
      · rw [hp] at h
        simp at h
      · rw [hp] at h
        rcases hd : decodePairs cs with vs | e2
        · rw [hd] at h
          simp at h
        · rw [hd] at h
          cases h
          simp [ih e2 hd]

/-- counterexample to C5 as stated: deserializing the 4-digit hex text
"abcd" succeeds with a 2-byte buffer, not a 64-byte one -/
theorem c5_deserialize_counterexample :
    deserializeSeed (strBytes "abcd") = HexResult.ok [171, 205] ∧
    ¬([171, 205] : List Nat).length = 64 := by
  constructor
  · rfl
  · decide

/-- C5 amended: construction from a mnemonic and passphrase always yields a
64-byte seed; hex deserialization performs no length check and returns one
byte per two (trimmed, 0x-stripped) hex digits, so only construction
guarantees 64 bytes. -/
theorem c5_seed_length_amended :
    (∀ (m : Mnemonic) (p : List Nat), (Seed.new m p).bytes.length = 64) ∧
    (∀ (s bs : List Nat), deserializeSeed s = HexResult.ok bs →
      2 * bs.length = (trimBytes (stripOx s)).length) := by
  constructor
  · intro m p
    simp only [Seed.new, cryptoPbkdf2]
    exact pbkdf2_out_length _ _ _
  · intro s bs hok
    unfold deserializeSeed from_hex at hok
    by_cases h1 : s.length % 2 = 1
    · rw [if_pos h1] at hok
      simp at hok
    · rw [if_neg h1] at hok
      by_cases h2 : s.length < 2
      · rw [if_pos h2] at hok
        simp at hok
      · rw [if_neg h2] at hok
        by_cases h2b : 2 < s.length ∧ isContB (s.getD 2 0) = true
        · rw [if_pos h2b] at hok
          simp at hok
        · rw [if_neg h2b] at hok
          by_cases h3 : (trimBytes (stripOx s)).length = 0
          · rw [if_pos h3] at hok
            simp at hok
          · rw [if_neg h3] at hok
            rcases hsc : splitScan (trimBytes (stripOx s)) with _ | k
            · rw [hsc] at hok
              have h4 := splitScan_none_even _ hsc
              rcases hdp : decodePairs (chunkExact 2 (trimBytes (stripOx s)))
                with e | bs2
              · rw [hdp] at hok
                simp at hok
              · rw [hdp] at hok
                have hbs : bs2 = bs := by
                  simpa using hok
                subst hbs
                have hlen := decodePairs_ok_length _ _ hdp
                have heven : (trimBytes (stripOx s)).length
                    = 2 * ((trimBytes (stripOx s)).length / 2) := by omega
                have hcnt := chunkExact_length_of_mul 2 (by norm_num)
                  ((trimBytes (stripOx s)).length / 2) (trimBytes (stripOx s)) heven
                rw [hlen, hcnt]
                omega
            · rw [hsc] at hok
              simp at hok

/-- witness for C5 amended: the deserialization half applied to "abcd" -/
theorem c5_seed_length_amended_witness :
    2 * ([171, 205] : List Nat).length
      = (trimBytes (stripOx (strBytes "abcd"))).length :=
  c5_seed_length_amended.2 (strBytes "abcd") [171, 205] (by decide)

/- ## Pair-parsing dichotomy under sign-free inputs -/

theorem parsePair_nosign_ok (a b : Nat) (ha1 : a ≠ 43) (ha2 : a ≠ 45)
    (hda : (hexDigitVal a).isSome = true) (hdb : (hexDigitVal b).isSome = true) :
    ∃ v, parsePair a b = .ok v := by
  unfold parsePair
  rw [if_neg ha1, if_neg ha2]
  rcases Option.isSome_iff_exists.mp hda with ⟨va, hva⟩
  rcases Option.isSome_iff_exists.mp hdb with ⟨vb, hvb⟩
  rw [hva, hvb]
  exact ⟨16 * va + vb, rfl⟩

theorem parsePair_nosign_bad (a b : Nat) (ha1 : a ≠ 43) (ha2 : a ≠ 45)
    (h : (hexDigitVal a).isSome = false ∨ (hexDigitVal b).isSome = false) :
    parsePair a b = .error .invalidDigit := by
  unfold parsePair
  rw [if_neg ha1, if_neg ha2]
  rcases ha : hexDigitVal a with _ | va
  · rfl
  · rcases hb : hexDigitVal b with _ | vb
    · rfl
    · rw [ha, hb] at h
      simp at h

theorem parsePair_ok_isSome (a b : Nat) (ha1 : a ≠ 43) (ha2 : a ≠ 45) (v : Nat)
    (h : parsePair a b = .ok v) :
    (hexDigitVal a).isSome = true ∧ (hexDigitVal b).isSome = true := by
  unfold parsePair at h
  rw [if_neg ha1, if_neg ha2] at h
  rcases ha : hexDigitVal a with _ | va
  · rw [ha] at h
    simp at h
  · rcases hb : hexDigitVal b with _ | vb
    · rw [ha, hb] at h
      simp at h
    · simp [ha, hb]

theorem decodePairs_ok_forall :
    ∀ (cs : List (List Nat)) (bs : List Nat), decodePairs cs = .ok bs →
      ∀ pr ∈ cs, ∃ v, parsePair (pr.getD 0 0) (pr.getD 1 0) = .ok v := by
  intro cs
  induction cs with
  | nil => intro bs _ pr hpr; simp at hpr
  | cons c cs ih =>
      intro bs h pr hpr
      simp only [decodePairs] at h
      rcases hp : parsePair (c.getD 0 0) (c.getD 1 0) with e | v
      · rw [hp] at h
        simp at h
      · rcases hd : decodePairs cs with e2 | vs
        · rw [hp, hd] at h
          simp at h
        · rcases List.mem_cons.mp hpr with hh | hh
          · subst hh
            exact ⟨v, hp⟩
          · exact ih vs hd pr hh

theorem decodePairs_all_ok :
    ∀ cs : List (List Nat),
      (∀ pr ∈ cs, ∃ v, parsePair (pr.getD 0 0) (pr.getD 1 0) = .ok v) →
      ∃ bs, decodePairs cs = .ok bs := by
  intro cs
  induction cs with
  | nil => intro _; exact ⟨[], rfl⟩
  | cons c cs ih =>
      intro h
      rcases h c (List.mem_cons_self _ _) with ⟨v, hv⟩
      rcases ih (fun pr hpr => h pr (List.mem_cons_of_mem _ hpr)) with ⟨bs, hbs⟩
      exact ⟨v :: bs, by simp only [decodePairs]; rw [hv, hbs]⟩

theorem decodePairs_dichotomy :
    ∀ cs : List (List Nat),
      (∀ pr ∈ cs, (∃ v, parsePair (pr.getD 0 0) (pr.getD 1 0) = .ok v) ∨
        parsePair (pr.getD 0 0) (pr.getD 1 0) = .error .invalidDigit) →
      (∃ bs, decodePairs cs = .ok bs) ∨
        decodePairs cs = .error .invalidDigit := by
  intro cs
  induction cs with
  | nil => intro _; exact Or.inl ⟨[], rfl⟩
  | cons c cs ih =>
      intro h
      rcases h c (List.mem_cons_self _ _) with ⟨v, hv⟩ | hbad
      · rcases ih (fun pr hpr => h pr (List.mem_cons_of_mem _ hpr)) with ⟨bs, hbs⟩ | hbs
        · left
          exact ⟨v :: bs, by simp only [decodePairs]; rw [hv, hbs]⟩
        · right
          simp only [decodePairs]
          rw [hv, hbs]
      · right
        simp only [decodePairs]
        rw [hbad]

/-- the prefix slice of from_hex panics on a byte index inside a multi-byte
character: on "aéb" (UTF-8 bytes 97, 195, 169, 98) byte index 2 falls on the
continuation byte of é, so slicing the first two bytes is not possible -/
theorem from_hex_boundary_at_prefix :
    from_hex [97, 195, 169, 98] = HexResult.panicked PanicKind.charBoundary := rfl

/-- a split_n slice bound can also fall inside a multi-byte character: on
"aaaéa" (UTF-8 bytes 97, 97, 97, 195, 169, 97) the second two-byte slice
ends at byte index 4, the continuation byte of é -/
theorem from_hex_boundary_in_chunk :
    from_hex [97, 97, 97, 195, 169, 97]
      = HexResult.panicked PanicKind.charBoundary := rfl

/-- counterexample to C8 as stated: on the empty string neither error
condition holds, yet from_hex panics instead of succeeding -/
theorem c8_empty_string_counterexample :
    from_hex [] = HexResult.panicked PanicKind.sliceOutOfBounds ∧
    ¬∃ bs, from_hex [] = HexResult.ok bs := by
  constructor
  · rfl
  · intro ⟨bs, h⟩
    simp [from_hex] at h

/-- C8 amended: on ASCII inputs free of whitespace and sign characters, and
away from the two panicking inputs "" and "0x", from_hex fails — always
with the same positionless invalid-digit ParseIntError — exactly when the
optionally 0x-stripped string has odd length or some two-character chunk
contains a non-hex character, and returns decoded bytes otherwise; outside
ASCII, from_hex can instead panic when a two-byte slice bound falls inside
a multi-byte character. -/
theorem c8_from_hex_errors_amended (s : List Nat) (hne : s ≠ [])
    (hnx : s ≠ strBytes "0x")
    (hascii : ∀ c ∈ s, c < 128)
    (hchars : ∀ c ∈ s, isWSB c = false ∧ c ≠ 43 ∧ c ≠ 45) :
    (from_hex s = HexResult.err ParseIntErr.invalidDigit ↔
      (stripOx s).length % 2 = 1 ∨
      ∃ pr ∈ chunkExact 2 (stripOx s), ∃ c ∈ pr, (hexDigitVal c).isSome = false) ∧
    (from_hex s ≠ HexResult.err ParseIntErr.invalidDigit →
      ∃ bs, from_hex s = HexResult.ok bs) := by
  have hsub : ∀ c ∈ stripOx s, c ∈ s := by
    unfold stripOx
    split
    · exact fun c hc => List.drop_subset 2 s hc
    · exact fun c hc => hc
  have htrim : trimBytes (stripOx s) = stripOx s :=
    trimBytes_id _ (fun c hc => (hchars c (hsub c hc)).1)
  have hparity : (stripOx s).length % 2 = s.length % 2 := by
    unfold stripOx
    split
    · rename_i hox
      have h2 : (s.take 2).length = 2 := by rw [hox]; rfl
      rw [List.length_take] at h2
      rw [List.length_drop]
      omega
    · rfl
  by_cases h1 : s.length % 2 = 1
  · have hfh : from_hex s = .err .invalidDigit := by
      unfold from_hex
      rw [if_pos h1]
    refine ⟨⟨fun _ => Or.inl (by omega), fun _ => hfh⟩, fun hn => absurd hfh hn⟩
  · have h2 : ¬(s.length < 2) := by
      have : s.length ≠ 0 := fun h => hne (List.length_eq_zero.mp h)
      omega
    have ht0 : ¬((stripOx s).length = 0) := by
      unfold stripOx
      split
      · rename_i hox
        intro habs
        apply hnx
        have hd0 : s.drop 2 = [] := List.length_eq_zero.mp habs
        calc s = s.take 2 ++ s.drop 2 := (List.take_append_drop 2 s).symm
          _ = strBytes "0x" := by rw [hox, hd0, List.append_nil]
      · exact fun habs => hne (List.length_eq_zero.mp habs)
    have ht4 : ¬((stripOx s).length % 2 = 1) := by omega
    have h2b : ¬(2 < s.length ∧ isContB (s.getD 2 0) = true) := by
      rintro ⟨hl, hcb⟩
      rw [isContB_eq_false_of_lt _ (hascii _ (getD_mem_of_lt s 2 0 hl))] at hcb
      exact Bool.noConfusion hcb
    have hscan : splitScan (stripOx s) = none :=
      splitScan_ascii _
        (fun c hc => isContB_eq_false_of_lt c (hascii c (hsub c hc)))
        (by omega)
    have hform : from_hex s =
        match decodePairs (chunkExact 2 (stripOx s)) with
        | .ok bs => HexResult.ok bs
        | .error e => HexResult.err e := by
      unfold from_hex
      rw [if_neg h1, if_neg h2, if_neg h2b, htrim, if_neg ht0, hscan]
    have heven : (stripOx s).length = 2 * ((stripOx s).length / 2) := by omega
    have hpr2 : ∀ pr ∈ chunkExact 2 (stripOx s), pr.length = 2 :=
      fun pr hpr => chunkExact_mem_length 2 (by norm_num) _ _ pr heven hpr
    have hflat : (chunkExact 2 (stripOx s)).flatten = stripOx s :=
      chunkExact_flatten 2 (by norm_num) _
    have hprmem : ∀ pr ∈ chunkExact 2 (stripOx s), ∀ c ∈ pr, c ∈ s := by
      intro pr hpr c hc
      apply hsub
      rw [← hflat]
      exact List.mem_flatten.mpr ⟨pr, hpr, hc⟩
    have hdich : ∀ pr ∈ chunkExact 2 (stripOx s),
        (∃ v, parsePair (pr.getD 0 0) (pr.getD 1 0) = .ok v) ∨
          parsePair (pr.getD 0 0) (pr.getD 1 0) = .error .invalidDigit := by
      intro pr hpr
      rcases List.length_eq_two.mp (hpr2 pr hpr) with ⟨a, b, hab⟩
      subst hab
      have hamem : a ∈ s := hprmem _ hpr a (by simp)
      have hbmem : b ∈ s := hprmem _ hpr b (by simp)
      by_cases hha : (hexDigitVal a).isSome = true
      · by_cases hhb : (hexDigitVal b).isSome = true
        · exact Or.inl (parsePair_nosign_ok a b (hchars a hamem).2.1
            (hchars a hamem).2.2 hha hhb)
        · exact Or.inr (parsePair_nosign_bad a b (hchars a hamem).2.1
            (hchars a hamem).2.2 (Or.inr (by simpa using hhb)))
      · exact Or.inr (parsePair_nosign_bad a b (hchars a hamem).2.1
          (hchars a hamem).2.2 (Or.inl (by simpa using hha)))
    constructor
    · constructor
      · intro herr
        by_cases hbad : ∃ pr ∈ chunkExact 2 (stripOx s), ∃ c ∈ pr,
            (hexDigitVal c).isSome = false
        · exact Or.inr hbad
        · push_neg at hbad
          exfalso
          have hallok : ∀ pr ∈ chunkExact 2 (stripOx s),
              (∃ v, parsePair (pr.getD 0 0) (pr.getD 1 0) = .ok v) := by
            intro pr hpr
            rcases List.length_eq_two.mp (hpr2 pr hpr) with ⟨a, b, hab⟩
            subst hab
            have hamem : a ∈ s := hprmem _ hpr a (by simp)
            have hA : (hexDigitVal a).isSome = true := by
              have h' := hbad _ hpr a (by simp)
              revert h'
              cases (hexDigitVal a).isSome <;> simp
            have hB : (hexDigitVal b).isSome = true := by
              have h' := hbad _ hpr b (by simp)
              revert h'
              cases (hexDigitVal b).isSome <;> simp
            exact parsePair_nosign_ok a b (hchars a hamem).2.1
              (hchars a hamem).2.2 hA hB
          rcases decodePairs_all_ok _ hallok with ⟨bs, hbs⟩
          rw [hform, hbs] at herr
          simp at herr
      · intro hr
        rcases hr with hodd | ⟨pr, hpr, c, hc, hcbad⟩
        · omega
        · rcases List.length_eq_two.mp (hpr2 pr hpr) with ⟨a, b, hab⟩
          subst hab
          have hamem : a ∈ s := hprmem _ hpr a (by simp)
          have hbad : parsePair a b = .error .invalidDigit := by
            apply parsePair_nosign_bad a b (hchars a hamem).2.1 (hchars a hamem).2.2
            rcases List.mem_cons.mp hc with hh | hh
            · subst hh
              exact Or.inl hcbad
            · simp only [List.mem_cons, List.not_mem_nil, or_false] at hh
              subst hh
              exact Or.inr hcbad
          rcases decodePairs_dichotomy _ hdich with ⟨bs, hbs⟩ | hbs
          · exfalso
            rcases decodePairs_ok_forall _ _ hbs [a, b] hpr with ⟨v, hv⟩
            simp only [List.getD_cons_zero, List.getD_cons_succ] at hv
            rw [hbad] at hv
            simp at hv
          · rw [hform, hbs]
    · intro hnerr
      rcases decodePairs_dichotomy _ hdich with ⟨bs, hbs⟩ | hbs
      · exact ⟨bs, by rw [hform, hbs]⟩
      · exfalso
        apply hnerr
        rw [hform, hbs]

/-- witness for C8 amended at the input "zz" -/
theorem c8_from_hex_errors_amended_witness :
    (from_hex (strBytes "zz") = HexResult.err ParseIntErr.invalidDigit ↔
      (stripOx (strBytes "zz")).length % 2 = 1 ∨
      ∃ pr ∈ chunkExact 2 (stripOx (strBytes "zz")), ∃ c ∈ pr,
        (hexDigitVal c).isSome = false) ∧
    (from_hex (strBytes "zz") ≠ HexResult.err ParseIntErr.invalidDigit →
      ∃ bs, from_hex (strBytes "zz") = HexResult.ok bs) :=
  c8_from_hex_errors_amended (strBytes "zz") (by decide) (by decide) (by decide)
    (by decide)

set_option maxRecDepth 1000000 in
/-- C9: the 12-word phrase "park remain person kitchen mule spell knee armed
position rail grid ankle" validates successfully under English with an empty
passphrase — the validating constructor returns a Mnemonic, not an error. -/
theorem c9_validate_12_english :
    (from_phrase english
      (strBytes "park remain person kitchen mule spell knee armed position rail grid ankle")
      (strBytes "")).isOk = true := by
  decide

/- ## Round-trip machinery -/

theorem flatMap_map_eq {α β γ : Type} (g : β → List γ) (f : α → β) (l : List α) :
    (l.map f).flatMap g = l.flatMap (fun x => g (f x)) := by
  induction l with
  | nil => rfl
  | cons x xs ih => simp [ih]

theorem flatMap_eq_flatten {α : Type} (f : List α → List α) :
    ∀ l : List (List α), (∀ p ∈ l, f p = p) → l.flatMap f = l.flatten := by
  intro l
  induction l with
  | nil => intro _; rfl
  | cons p ps ih =>
      intro h
      rw [List.flatMap_cons, List.flatten_cons, h p (List.mem_cons_self _ _),
        ih (fun q hq => h q (List.mem_cons_of_mem _ hq))]

theorem map_pointwise_id {α : Type} (f : α → α) :
    ∀ l : List α, (∀ x ∈ l, f x = x) → l.map f = l := by
  intro l
  induction l with
  | nil => intro _; rfl
  | cons x xs ih =>
      intro h
      rw [List.map_cons, h x (List.mem_cons_self _ _),
        ih (fun y hy => h y (List.mem_cons_of_mem _ hy))]

theorem getD_eq_get_of_lt {α : Type} (l : List α) (i : Nat) (d : α)
    (h : i < l.length) : l.getD i d = l.get ⟨i, h⟩ := by
  rw [List.getD_eq_getElem l d h]
  rfl

/-- success of the validating constructor on a wordlist-rendered index
sequence whose bit stream splits as entropy plus its own checksum -/
theorem from_phrase_ok (wl : Wordlist) (indices ent pass : List Nat)
    (hidx : ∀ i ∈ indices, i < 2048)
    (hwc : indices.length = 12 ∨ indices.length = 15 ∨ indices.length = 18 ∨
      indices.length = 21 ∨ indices.length = 24)
    (hbits : indices.flatMap (natToBits 11) =
      bytesToBits ent ++ checksumBits ent (indices.length * 11 * 32 / 33 / 32))
    (hentlen : (bytesToBits ent).length = indices.length * 11 * 32 / 33)
    (hdiv8 : indices.length * 11 * 32 / 33 % 8 = 0)
    (hbytes : bitsToBytes (bytesToBits ent) = ent) :
    from_phrase wl (joinWords (indices.map (fun i => wl.data.getD i []))) pass
      = .ok ⟨indices.map (fun i => wl.data.getD i []), ent⟩ := by
  have hmem : ∀ w ∈ indices.map (fun i => wl.data.getD i []), w ∈ wl.data := by
    intro w hw
    rcases List.mem_map.mp hw with ⟨i, hi, hwi⟩
    subst hwi
    exact getD_mem_of_lt wl.data i [] (by rw [wl.size_eq]; exact hidx i hi)
  have hsplit : splitWS (joinWords (indices.map (fun i => wl.data.getD i [])))
      = indices.map (fun i => wl.data.getD i []) :=
    splitWS_joinWords _ (fun w hw => wl.mem_ne_nil w (hmem w hw))
      (fun w hw => wl.mem_no_space w (hmem w hw))
  have hlenws : (indices.map (fun i => wl.data.getD i [])).length = indices.length :=
    List.length_map _ _
  have hpoint : ∀ i ∈ indices,
      (fun w => match lookupIdx wl.data w with
        | some j => Except.ok j
        | none => Except.error (MnemonicError.unknownWord w))
        ((fun i => wl.data.getD i []) i) = Except.ok i := by
    intro i hi
    have hilt : i < wl.data.length := by rw [wl.size_eq]; exact hidx i hi
    show (match lookupIdx wl.data (wl.data.getD i []) with
      | some j => Except.ok j
      | none => Except.error (MnemonicError.unknownWord (wl.data.getD i []))) = Except.ok i
    rw [getD_eq_get_of_lt wl.data i [] hilt, lookupIdx_get wl.data wl.nodup i hilt]
  have hmapex := mapExcept_map_ok
    (fun w => match lookupIdx wl.data w with
      | some j => Except.ok j
      | none => Except.error (MnemonicError.unknownWord w))
    (fun i => wl.data.getD i []) indices hpoint
  have hany : ¬(indices.any (fun i => 2047 < i) = true) := by
    rw [List.any_eq_true]
    rintro ⟨i, hi, hlt⟩
    have := hidx i hi
    simp at hlt
    omega
  have hunp : unpack indices (indices.length * 11 * 32 / 33) =
      .ok (ent, checksumBits ent (indices.length * 11 * 32 / 33 / 32)) := by
    simp only [unpack]
    rw [if_neg hany, if_neg (by omega)]
    rw [hbits, ← hentlen]
    simp only [List.take_left, List.drop_left, hbytes]
  simp only [from_phrase]
  rw [hsplit, hlenws]
  rw [if_pos hwc]
  simp only [hmapex, hunp, if_true]

/-- C2: for every valid entropy length and every wordlist (language),
validating the phrase generated from the entropy succeeds and recovers the
same entropy — the two constructors are mutually inverse. -/
theorem c2_entropy_mnemonic_roundtrip (wl : Wordlist) (e pass : List Nat)
    (hlen : e.length = 16 ∨ e.length = 20 ∨ e.length = 24 ∨
      e.length = 28 ∨ e.length = 32)
    (hb : ∀ x ∈ e, x < 256) :
    ∃ m m2, from_entropy wl e = .ok m ∧
      from_phrase wl (Mnemonic.phrase m) pass = .ok m2 ∧ m2.entropy = e := by
  have hcsL : (checksumBits e (e.length * 8 / 32)).length = e.length * 8 / 32 := by
    unfold checksumBits
    rw [List.length_take]
    have h256 : (bytesToBits (sha256 e)).length = 256 := by
      unfold bytesToBits
      rw [flatMap_length_const (natToBits 8) 8 (fun x => natToBits_length 8 x),
        sha256_length]
    rw [h256]
    omega
  have hbitslen : (bytesToBits e).length = 8 * e.length := by
    unfold bytesToBits
    rw [flatMap_length_const (natToBits 8) 8 (fun x => natToBits_length 8 x)]
  have hstream : (bytesToBits e ++ checksumBits e (e.length * 8 / 32)).length
      = 11 * ((8 * e.length + e.length * 8 / 32) / 11) := by
    rw [List.length_append, hbitslen, hcsL]
    omega
  have hidxlen : (pack e (checksumBits e (e.length * 8 / 32))).length
      = (8 * e.length + e.length * 8 / 32) / 11 := by
    unfold pack
    rw [List.length_map]
    exact chunkExact_length_of_mul 11 (by norm_num) _ _ hstream
  have hidxlt : ∀ i ∈ pack e (checksumBits e (e.length * 8 / 32)), i < 2048 := by
    intro i hi
    unfold pack at hi
    rcases List.mem_map.mp hi with ⟨p, hp, hpi⟩
    subst hpi
    have hplen : p.length = 11 :=
      chunkExact_mem_length 11 (by norm_num) _ _ p hstream hp
    have hlt := bitsToNat_lt p
    rw [hplen] at hlt
    norm_num at hlt
    exact hlt
  have hflat : (pack e (checksumBits e (e.length * 8 / 32))).flatMap (natToBits 11)
      = bytesToBits e ++ checksumBits e (e.length * 8 / 32) := by
    unfold pack
    rw [flatMap_map_eq]
    rw [flatMap_eq_flatten _ _ (fun p hp => by
      have hplen : p.length = 11 :=
        chunkExact_mem_length 11 (by norm_num) _ _ p hstream hp
      conv_rhs => rw [← natToBits_bitsToNat p]
      rw [hplen])]
    exact chunkExact_flatten 11 (by norm_num) _
  have hwc : (pack e (checksumBits e (e.length * 8 / 32))).length = 12 ∨
      (pack e (checksumBits e (e.length * 8 / 32))).length = 15 ∨
      (pack e (checksumBits e (e.length * 8 / 32))).length = 18 ∨
      (pack e (checksumBits e (e.length * 8 / 32))).length = 21 ∨
      (pack e (checksumBits e (e.length * 8 / 32))).length = 24 := by
    rw [hidxlen]
    omega
  have harith1 : (pack e (checksumBits e (e.length * 8 / 32))).length * 11 * 32 / 33
      = 8 * e.length := by
    rw [hidxlen]
    omega
  have harith2 : (pack e (checksumBits e (e.length * 8 / 32))).length * 11 * 32 / 33 / 32
      = e.length * 8 / 32 := by
    rw [hidxlen]
    omega
  have hbytes : bitsToBytes (bytesToBits e) = e := by
    unfold bitsToBytes bytesToBits
    rw [chunk_flatMap 8 (by norm_num) (natToBits 8) (fun x => natToBits_length 8 x) e]
    rw [List.map_map]
    exact map_pointwise_id _ e (fun x hx => by
      show bitsToNat (natToBits 8 x) = x
      rw [bitsToNat_natToBits]
      exact Nat.mod_eq_of_lt (by
        have := hb x hx
        norm_num
        omega))
  refine ⟨⟨(pack e (checksumBits e (e.length * 8 / 32))).map (fun i => wl.data.getD i []), e⟩,
    ⟨(pack e (checksumBits e (e.length * 8 / 32))).map (fun i => wl.data.getD i []), e⟩,
    ?_, ?_, rfl⟩
  · unfold from_entropy
    rw [if_pos hlen]
  · show from_phrase wl
      (joinWords ((pack e (checksumBits e (e.length * 8 / 32))).map
        (fun i => wl.data.getD i []))) pass = _
    exact from_phrase_ok wl (pack e (checksumBits e (e.length * 8 / 32))) e pass
      hidxlt hwc
      (by rw [harith2]; exact hflat)
      (by rw [harith1]; exact hbitslen)
      (by rw [harith1]; omega)
      hbytes

/-- witness for C2 at the 16-byte entropy of the standard test vector under
the English wordlist -/
theorem c2_entropy_mnemonic_roundtrip_witness :
    ∃ m m2, from_entropy english
        [51, 228, 107, 177, 58, 116, 110, 164, 28, 221, 228, 92, 144, 132, 106, 121]
        = .ok m ∧
      from_phrase english (Mnemonic.phrase m) [] = .ok m2 ∧
      m2.entropy =
        [51, 228, 107, 177, 58, 116, 110, 164, 28, 221, 228, 92, 144, 132, 106, 121] :=
  c2_entropy_mnemonic_roundtrip english
    [51, 228, 107, 177, 58, 116, 110, 164, 28, 221, 228, 92, 144, 132, 106, 121]
    [] (by decide) (by decide)
